import Mathlib

/-!
# Verification of the DistrictBuilder geographic import & aggregation engine

Shallow embedding of the core of
`src/django/publicmapping/redistricting/management/commands/setup.py`:

* the Characteristic Assigner (`set_geounit_characteristic`, lines 1483-1511),
* the shapefile ingestion loop (`import_shape`, lines 1313-1481),
* the renesting engine (`aggregate_unit`, lines 785-843, and the per-geolevel
  loop in `renest_geolevel`, lines 764-775),
* the geometry coercion helper (`enforce_multi`, lines 1681-1702).

Decimal quantities are embedded as rationals (`ℚ`); the persistence store
(Django ORM over a SQL database) is embedded as explicit lists of records
with in-place updates, mirroring the query-and-save structure of the source.
GEOS geometry values are embedded two ways, each matching what the code under
scrutiny actually inspects: planar regions as finite cell sets (union /
difference / area are set union / set difference / cardinality) for the
aggregator, and a constructor tree carrying SRID and component structure for
`enforce_multi`.
-/

namespace DistrictBuilder

set_option maxRecDepth 40000

/-! ## Python `decimal` arithmetic

The source manipulates `decimal.Decimal` values.  We embed them as exact
rationals.  The two rounding modes that matter:

* `quantize` to four fractional digits.  The source writes
  `Decimal(str(v)).quantize(Decimal('000000.0000', 'ROUND_DOWN'))`.
  In Python 2 the second positional argument of the `Decimal` constructor is
  a *context*, not a rounding mode, and a valid literal string never consults
  it; so `'ROUND_DOWN'` is silently discarded and `quantize` falls back to
  the default context rounding, which is ROUND_HALF_EVEN.  The faithful
  embedding of that line is therefore half-even rounding at 4 fractional
  digits (`quantizeHalfEven4` below), not truncation.
* truncation toward zero (`truncFrac`), which is what the specification
  describes (`ROUND_DOWN`), kept separately for comparison.
-/

/-! ### Evaluation-friendly rational primitives

The standard `ℚ` field operations of the library are deliberately opaque to
reduction, which would make every concrete run of the embedded code
unevaluatable.  The model therefore computes through the following wrappers,
defined directly by integer arithmetic on numerator and denominator via
`Rat.divInt`; each is proved equal to the corresponding standard operation
(`qAdd_eq`, `qMul_eq`, `qDiv_eq`, `qSub_eq`, `qOfInt_eq`, `qSum_eq` below),
so every statement about them is a statement about exact rational
arithmetic. -/

/-- The integer `n` as a rational. -/
def qOfInt (n : ℤ) : ℚ := Rat.divInt n 1

/-- Exact rational addition. -/
def qAdd (a b : ℚ) : ℚ :=
  Rat.divInt (a.num * (b.den : ℤ) + b.num * (a.den : ℤ)) ((a.den : ℤ) * (b.den : ℤ))

/-- Exact rational subtraction. -/
def qSub (a b : ℚ) : ℚ := qAdd a (-b)

/-- Exact rational multiplication. -/
def qMul (a b : ℚ) : ℚ := Rat.divInt (a.num * b.num) ((a.den : ℤ) * (b.den : ℤ))

/-- Exact rational division (0 when the divisor is 0, as in the field `/`). -/
def qDiv (a b : ℚ) : ℚ := Rat.divInt (a.num * (b.den : ℤ)) ((a.den : ℤ) * b.num)

/-- Exact sum of a list of rationals (the SQL `Sum` aggregate). -/
def qSum (l : List ℚ) : ℚ := l.foldr qAdd 0

/-- Round a rational to the nearest integer, ties to the even integer:
Python `decimal`'s default ROUND_HALF_EVEN applied at integer granularity. -/
def roundHalfEven (q : ℚ) : ℤ :=
  let f : ℤ := q.floor
  let r : ℚ := qSub q (qOfInt f)
  if r < mkRat 1 2 then f
  else if mkRat 1 2 < r then f + 1
  else if f % 2 = 0 then f else f + 1

/-- `Decimal.quantize(Decimal('0.0000'))` under the default context:
half-even rounding at 4 fractional digits.  This embeds line 1487/1491 of
`setup.py` (see the module comment: the `'ROUND_DOWN'` in the source lands in
the dead context argument of the constructor and has no effect). -/
def quantizeHalfEven4 (q : ℚ) : ℚ :=
  Rat.divInt (roundHalfEven (qMul q (qOfInt 10000))) 10000

/-- Truncate a rational toward zero (`⌊q⌋` for nonnegative `q`, `⌈q⌉` = 
`-⌊-q⌋` otherwise). -/
def ratTruncZ (q : ℚ) : ℤ :=
  if 0 ≤ q then q.floor else -(Rat.floor (-q))

/-- Truncation (toward zero, never away) at `n` fractional digits: the
rounding behaviour the specification ascribes to leaf ingestion
(ROUND_DOWN), and, at 8 digits, the fixed-point width of the stored
`percentage` column. -/
def truncFrac (n : ℕ) (q : ℚ) : ℚ :=
  Rat.divInt (ratTruncZ (qMul q (qOfInt ((10 : ℤ) ^ n)))) ((10 : ℤ) ^ n)

/-- Parse the digit characters of `cs` as a natural number (most significant
first).  Used only on lists already checked to be all digits. -/
def natOfDigits (cs : List Char) : ℕ :=
  cs.foldl (fun n c => n * 10 + (c.toNat - 48)) 0

/-- The embedding of `Decimal(str(v))` for the plain fixed-point literals that
shapefile numeric attributes produce: optional sign, an integer part and an
optional fractional part.  `none` models the `decimal.InvalidOperation`
exception raised by an unparsable value.  (Python's `Decimal` also accepts
exponent forms and the specials `NaN`/`Infinity`; those never arise from the
numeric attribute columns this code reads and are out of scope here.) -/
def parseDec (s : String) : Option ℚ :=
  let cs := s.toList
  let signed : ℤ × List Char :=
    match cs with
    | '-' :: r => (-1, r)
    | '+' :: r => (1, r)
    | _ => (1, cs)
  match signed.2.splitOn '.' with
  | [ip] =>
      if ip.isEmpty ∨ ¬ ip.all Char.isDigit then none
      else some (qOfInt (signed.1 * (natOfDigits ip : ℤ)))
  | [ip, fp] =>
      if (ip.isEmpty ∧ fp.isEmpty) ∨ ¬ ip.all Char.isDigit ∨ ¬ fp.all Char.isDigit then
        none
      else
        some (Rat.divInt
          (signed.1 * ((natOfDigits ip * 10 ^ fp.length + natOfDigits fp : ℕ) : ℤ))
          ((10 : ℤ) ^ fp.length))
  | _ => none

/-- A stored `percentage`: the source assigns either the zero sentinel string
`'0000.00000000'` (line 818 / 1488) or a `Decimal` quotient.  The `val`
payload holds the persisted fixed-point value. -/
inductive Pct where
  | sentinel
  | val (q : ℚ)
deriving DecidableEq

/-- Modelled from the spec: the `Characteristic.percentage` column is "a
fixed-point decimal with 8 fractional digits"; the Django model class holding
that column is not part of the sources under scrutiny, so persistence of a
computed quotient is embedded, per the spec's words and its worked example
(`0.45123400` as the "8-digit truncation of 45.1234/100.0000"), as truncation
to 8 fractional digits.  Python-side `Decimal` division is embedded as exact
rational division; its 28-significant-digit context rounding cannot move the
first 8 fractional digits of a quotient of two 4-digit fixed-point values. -/
def persistPct (n : ℚ) : Pct :=
  Pct.val (truncFrac 8 n)

/-! ## Data model -/

/-- A statistical Subject: its primary-key name and, optionally, the name of
the Subject acting as its percentage denominator (`Subject.percentage_denominator`). -/
structure Subject where
  sname : String
  percentage_denominator : Option String
deriving DecidableEq

/-- Planar regions for the aggregator, abstracted as finite sets of unit
cells: `union` is set union, `difference` is set difference, `area` is the
cell count.  This captures exactly the algebra of GEOS operations that
`aggregate_unit` consults (union, difference, area-is-zero tests). -/
abbrev Geom := Finset ℕ

/-- The two GEOS operations `aggregate_unit` invokes whose output it stores
without inspecting: topology-preserving simplification at a tolerance and
multi-polygon coercion.  They are kept opaque parameters so every theorem
about the aggregator holds for the real library functions. -/
structure GeomOps where
  simplifyG : ℚ → Geom → Geom
  enforceMultiG : Geom → Geom

/-- A stored geographic unit (the `Geounit` row): identity fields, tree code,
geolevel name, precise and simplified geometry, centroid, and the `child`
foreign key written by the renesting pass. -/
structure Geounit where
  id : ℕ
  name : String
  portable_id : String
  tree_code : String
  geolevel : String
  geom : Geom
  simple : Geom
  center : ℚ × ℚ
  child : Option ℕ
deriving DecidableEq

/-- A stored `Characteristic` row: one Subject's value for one Geounit. -/
structure Characteristic where
  geounit : ℕ
  subject : String
  number : ℚ
  percentage : Pct
deriving DecidableEq

/-- The persistence store: the `Geounit` and `Characteristic` tables, plus the
next auto-increment id handed to a created unit. -/
structure Store where
  units : List Geounit
  chars : List Characteristic
  nextId : ℕ
deriving DecidableEq

/-- Replace the first element of `l` satisfying `p` by `f` of it (a Django
`query[0]; ...; save()` update-in-place). -/
def updateFirst (p : α → Bool) (f : α → α) : List α → List α
  | [] => []
  | a :: l => if p a then f a :: l else a :: updateFirst p f l

/-! ## The Hierarchy Aggregator (`aggregate_unit`, lines 785-843)

`aggregate_unit(self, geounit, geolevel, parent, verbose)` receives an
in-memory snapshot of one unit at the target geolevel; `parent.geolevel` is
the finer geolevel whose units are matched by tree-code prefix (the source
calls that match set `parentunits`).  `geolevel.tolerance` is passed here as
`tol`, and `Subject.objects.all()` as the list `subjects`. -/

/-- The row predicate of `Characteristic.objects.filter(geounit=..., subject=...)`. -/
def cMatch (gid : ℕ) (sn : String) (c : Characteristic) : Bool :=
  c.geounit = gid ∧ c.subject = sn

/-- Python `s.startswith(pre)` over the underlying character lists. -/
def strStartsWith (pre s : String) : Bool :=
  pre.toList.isPrefixOf s.toList

/-- The row predicate of the tree-prefix query at lines 789-791:
`tree_code__startswith=geounit.tree_code, geolevel=parent.geolevel`. -/
def uMatch (g : Geounit) (plvl : String) (u : Geounit) : Bool :=
  strStartsWith g.tree_code u.tree_code ∧ u.geolevel = plvl

/-- Line 789-791: `Geounit.objects.filter(tree_code__startswith=geounit.tree_code,
geolevel=parent.geolevel)`. -/
def parentunitsOf (st : Store) (g : Geounit) (plvl : String) : List Geounit :=
  st.units.filter (uMatch g plvl)

/-- Line 794: `parentunits.unionagg()` — the SQL aggregate returns NULL
(`None`) when no rows match, else the geometric union of the rows. -/
def unionaggOf (l : List Geounit) : Option Geom :=
  match l with
  | [] => none
  | _ => some (l.foldl (fun a u => a ∪ u.geom) ∅)

/-- Python truthiness of the optional `Decimal` sum `aggdata` at line 819:
`None` and `Decimal(0)` are falsy. -/
def pyTruthyQ : Option ℚ → Bool
  | none => false
  | some a => a ≠ 0

/-- The statistics loop body (lines 815-841) for one `subject`.  `pids` are
the ids of the tree-code-matched finer units, `gid` the id of the snapshot
unit being aggregated.  Returns the updated store and data-modified counter.

Two behaviours of the source worth flagging:

* Line 820-821: the denominator query set `dset` is built and then never
  read — `denominator_data` is recomputed from `qset`, the *numerator*
  query set, so whenever the branch is taken the quotient is
  `aggdata / aggdata`.
* Line 825-826: when the sum is SQL NULL, `aggdata` becomes the *string*
  `"0.0"`; the later Python 2 comparison `aggdata != mychar.number` between
  a `str` and a `Decimal` is then always true, so the update branch is
  forced (`aggNone` below), writing number 0 and the sentinel percentage. -/
def aggregateSubjectStep (pids : List ℕ) (gid : ℕ) (acc : Store × ℕ)
    (subject : Subject) : Store × ℕ :=
  let st := acc.1
  let num := acc.2
  let qset := st.chars.filter fun c => c.geounit ∈ pids ∧ c.subject = subject.sname
  -- aggdata = qset.aggregate(Sum('number'))['number__sum']
  let aggdataOpt : Option ℚ :=
    match qset with
    | [] => none
    | _ => some (qSum (qset.map (·.number)))
  -- percentage = '0000.00000000'; if aggdata and subject.percentage_denominator: ...
  let percentage : Pct :=
    if pyTruthyQ aggdataOpt ∧ subject.percentage_denominator.isSome then
      -- dset = Characteristic.objects.filter(geounit__in=parentunits,
      --                                      subject=subject.percentage_denominator)
      -- (computed in the source, never used)
      -- denominator_data = qset.aggregate(Sum('number'))['number__sum']
      let denominator_data := aggdataOpt.getD 0
      if 0 < denominator_data then persistPct (qDiv (aggdataOpt.getD 0) denominator_data)
      else Pct.sentinel
    else Pct.sentinel
  let aggNone := aggdataOpt.isNone
  -- if aggdata is None: aggdata = "0.0"
  let aggdata : ℚ := aggdataOpt.getD 0
  match st.chars.find? (cMatch gid subject.sname) with
  | none =>
      ({ st with chars :=
          st.chars ++ [⟨gid, subject.sname, aggdata, percentage⟩] }, num + 1)
  | some mychar =>
      if aggNone ∨ aggdata ≠ mychar.number then
        let chars' := updateFirst
          (cMatch gid subject.sname)
          (fun c => { c with number := aggdata, percentage := percentage })
          st.chars
        ({ st with chars := chars' }, num + 1)
      else (st, num)

/-- Lines 785-843: one renesting step for the snapshot unit `geounit`.
Returns the store and the `(geo, num)` counters.  Steps, in source order:
set the `child` pointer of every tree-code-matched finer unit (line 793,
before the union); return early when the union aggregate is `None`
(line 796-797); replace the unit's geometry and simplified geometry in one
`save()` when `newgeo.difference(geounit.geom).area != 0` (lines 799-812 —
note the trigger is the area of the one-sided difference, and the `save()`
writes the snapshot's fields back); then the per-Subject statistics loop. -/
def aggregate_unit (ops : GeomOps) (st : Store) (geounit : Geounit) (tol : ℚ)
    (plvl : String) (subjects : List Subject) : Store × ℕ × ℕ :=
  let parentunits := parentunitsOf st geounit plvl
  -- parentunits.update(child=geounit)
  let st : Store := { st with units := st.units.map fun u =>
    if (uMatch geounit plvl u) then { u with child := some geounit.id } else u }
  match unionaggOf parentunits with
  | none => (st, 0, 0)
  | some newgeo =>
    let st :=
      if (newgeo \ geounit.geom).card ≠ 0 then
        -- newsimple = newgeo.simplify(preserve_topology=True, tolerance=...)
        -- geounit.geom = enforce_multi(newgeo)
        -- geounit.simple = enforce_multi(newsimple); geounit.save()
        let newsimple := ops.simplifyG tol newgeo
        { st with units := st.units.map fun u =>
            if u.id = geounit.id then
              { geounit with
                geom := ops.enforceMultiG newgeo
                simple := ops.enforceMultiG newsimple }
            else u }
      else st
    let geo : ℕ := if (newgeo \ geounit.geom).card ≠ 0 then 1 else 0
    let pids := parentunits.map (·.id)
    let r := subjects.foldl (aggregateSubjectStep pids geounit.id) (st, 0)
    (r.1, geo, r.2)

/-- Lines 764-775: the renesting pass over one geolevel.  Django evaluates
`unitqset` once at loop entry, so the pass folds `aggregate_unit` over a
snapshot of the units at the target level, accumulating the two counters. -/
def renest (ops : GeomOps) (st : Store) (lvl : String) (plvl : String)
    (tol : ℚ) (subjects : List Subject) : Store × ℕ × ℕ :=
  (st.units.filter (·.geolevel = lvl)).foldl
    (fun acc g =>
      let r := aggregate_unit ops acc.1 g tol plvl subjects
      (r.1, acc.2.1 + r.2.1, acc.2.2 + r.2.2))
    (st, 0, 0)

/-- The `number` of the first stored Characteristic row for `(gid, sname)` —
what `Characteristic.objects.filter(geounit=..., subject=...)[0]` reads. -/
def charNumberOf (st : Store) (gid : ℕ) (sname : String) : Option ℚ :=
  (st.chars.find? (cMatch gid sname)).map (·.number)

/-- The `percentage` of the first stored Characteristic row for `(gid, sname)`. -/
def charPctOf (st : Store) (gid : ℕ) (sname : String) : Option Pct :=
  (st.chars.find? (cMatch gid sname)).map (·.percentage)

/-- The exact sum of the stored `number`s for subject `sname` over the
Characteristic rows of the units in `pids`. -/
def childSum (st : Store) (pids : List ℕ) (sname : String) : ℚ :=
  qSum ((st.chars.filter fun c => c.geounit ∈ pids ∧ c.subject = sname).map (·.number))

/-- Unit ids are pairwise distinct (primary-key integrity of the `Geounit`
table; creation always hands out the fresh `nextId`). -/
abbrev NodupIds (st : Store) : Prop := (st.units.map (·.id)).Nodup

/-- The stored (geometry, simplified geometry) pair of the unit row `gid` —
the two columns `aggregate_unit`'s `save()` writes together. -/
def geomPairOf (st : Store) (gid : ℕ) : Option (Geom × Geom) :=
  (st.units.find? (fun u => u.id = gid)).map fun u => (u.geom, u.simple)

/-- The identity-relevant projection of the unit table: primary key, tree
code and geolevel — the columns the renesting queries read and the
renesting writes (child pointer, geometry columns) never change. -/
def unitsKey (st : Store) : List (ℕ × String × String) :=
  st.units.map fun u => (u.id, u.tree_code, u.geolevel)

/-! ## Multi-polygon coercion (`enforce_multi`, lines 1681-1702, and
`empty_geom`, lines 1667-1679)

`enforce_multi` receives a Django GEOS geometry object or Python `None` and
branches on Python truthiness (`if geom:`) and on `geom.geom_type`.  The
embedding keeps the constructor structure those branches inspect: rings are
coordinate lists, a polygon is its ring list (exterior first), a
multi-polygon a list of polygons.  Python truthiness of a GEOS geometry goes
through `__len__`: number of rings for a Polygon (`num_interior_rings + 1`),
number of components for collection types, number of points for a line
type, and the coordinate dimension (0 when empty) for a Point. -/

/-- A ring: a closed coordinate sequence. -/
abbrev Ring := List (ℚ × ℚ)

/-- A GEOS geometry value as the Django bindings expose it to
`enforce_multi`: its SRID plus the component structure `__len__` counts. -/
inductive PyGeom where
  | polygon (srid : ℤ) (rings : List Ring)
  | multiPolygon (srid : ℤ) (polys : List (List Ring))
  | point (srid : ℤ) (coords : Option (ℚ × ℚ))
  | lineString (srid : ℤ) (points : List (ℚ × ℚ))
  | geometryCollection (srid : ℤ) (ncomp : ℕ)

/-- `geom.srid`. -/
def PyGeom.sridOf : PyGeom → ℤ
  | .polygon s _ => s
  | .multiPolygon s _ => s
  | .point s _ => s
  | .lineString s _ => s
  | .geometryCollection s _ => s

/-- `geom.geom_type`. -/
def PyGeom.geomType : PyGeom → String
  | .polygon _ _ => "Polygon"
  | .multiPolygon _ _ => "MultiPolygon"
  | .point _ _ => "Point"
  | .lineString _ _ => "LineString"
  | .geometryCollection _ _ => "GeometryCollection"

/-- `len(geom)` per the Django GEOS bindings: `num_interior_rings + 1` for a
Polygon (1 even when the ring list is empty, matching GEOS which reports 0
interior rings for an empty polygon), the component count for collections,
the point count for a line, and the coordinate dimension (0 when empty) for
a Point. -/
def PyGeom.pyLen : PyGeom → ℕ
  | .polygon _ rings => (rings.length - 1) + 1
  | .multiPolygon _ ps => ps.length
  | .point _ c => if c.isSome then 2 else 0
  | .lineString _ pts => pts.length
  | .geometryCollection _ n => n

/-- Python truthiness of a GEOS geometry object: `__len__() != 0`. -/
def PyGeom.pyTruthy (g : PyGeom) : Bool :=
  g.pyLen ≠ 0

/-- Lines 1667-1679: `empty_geom(srid)` — an empty `GeometryCollection`
tagged with the given SRID. -/
def empty_geom (srid : ℤ) : PyGeom :=
  .geometryCollection srid 0

/-- Lines 1681-1702: `enforce_multi(geom)`.  `none` is Python `None`.  A
falsy geometry (empty, or `None`) is returned unchanged by the final `else`;
otherwise the function branches on `geom_type`: a MultiPolygon passes
through, a Polygon is wrapped as `MultiPolygon(geom)`, and anything else
becomes `empty_geom(geom.srid)`. -/
def enforce_multi : Option PyGeom → Option PyGeom
  | some g =>
      if g.pyTruthy then
        if g.geomType = "MultiPolygon" then some g
        else if g.geomType = "Polygon" then
          match g with
          | .polygon srid rings => some (.multiPolygon srid [rings])
          | _ => some g
        else some (empty_geom g.sridOf)
      else some g
  | none => none

/-! ## Shapefile ingestion (`import_shape`, lines 1313-1481) and the
Characteristic Assigner (`set_geounit_characteristic`, lines 1483-1511)

A feature carries the values of its identity fields (name / portable /
ordered tree fragments with their configured zero-pad widths, from the
`Fields/Field` declarations) and its raw attribute table.  The GEOS
normalization pipeline (buffer(0), multi-polygon coercion, simplification,
centroid correction, lines 1386-1418) is deterministic in the feature; it is
kept an opaque parameter `norm` producing the `(geom, simple, center)`
triple, with `none` standing for the exception that the bare `except:` at
line 1440 turns into a skip of the feature. -/

/-- One shapefile feature: derived name / portable-id field values, the tree
fragments `(raw value, declared width)` in `pos` order, and the raw
attribute table read by `feat.get(...)`. -/
structure Feature where
  nameF : String
  portableF : String
  treeParts : List (String × ℕ)
  attrs : List (String × String)
deriving DecidableEq

/-- Python `str.strip(' ')` (line 1328): drop space characters from both
ends.  (Tree-code fragments are unsigned identifier strings.) -/
def stripSpaces (s : String) : String :=
  String.mk (((s.toList.dropWhile (· = ' ')).reverse.dropWhile (· = ' ')).reverse)

/-- Python `str.zfill(width)` for unsigned content (line 1330): left-pad with
`'0'` to `width`; a string already at least `width` long is unchanged. -/
def zfill (width : ℕ) (s : String) : String :=
  if width ≤ s.length then s
  else String.mk (List.replicate (width - s.length) '0') ++ s

/-- Lines 1320-1331, `get_shape_tree`: concatenate each tree fragment,
space-stripped and left-zero-padded to its declared width, in declared
position order. -/
def get_shape_tree (f : Feature) : String :=
  f.treeParts.foldl (fun acc p => acc ++ zfill p.2 (stripSpaces p.1)) ""

/-- `feat.get(attr)`: `none` models the OGr failure on an undeclared field. -/
def getAttr (f : Feature) (a : String) : Option String :=
  (f.attrs.find? (·.1 = a)).map (·.2)

/-- One entry of the `subject_fields` configuration: the attribute field name
and the Subject it maps to (lines 1352-1364 build the `subject_objects`
dictionary from these, plus a reverse `<subject>_by_id → field` entry per
subject used for denominator lookups). -/
structure SubjectField where
  field : String
  subject : Subject
deriving DecidableEq

/-- `subject_objects['<dname>_by_id']` (line 1490): the attribute field
mapped to the subject named `dname`.  Later configuration entries overwrite
earlier ones in the Python dictionary, hence the reversed search; `none`
models the `KeyError` when no mapped subject has that name. -/
def denomFieldFor (sfs : List SubjectField) (dname : String) : Option String :=
  (sfs.reverse.find? (fun sf => sf.subject.sname = dname)).map (·.field)

/-- The Python exceptions that `set_geounit_characteristic` can raise — and,
crucially, does *not* catch (its only `try` wraps `c.save()`). -/
inductive PyErr where
  | invalidOperation
  | keyError
  | ogrError
deriving DecidableEq

instance {ε α : Type} [DecidableEq ε] [DecidableEq α] :
    DecidableEq (Except ε α) := fun a b =>
  match a, b with
  | .ok x, .ok y =>
      if h : x = y then .isTrue (by rw [h]) else .isFalse (by simpa using h)
  | .error e, .error e' =>
      if h : e = e' then .isTrue (by rw [h]) else .isFalse (by simpa using h)
  | .ok _, .error _ => .isFalse (by simp)
  | .error _, .ok _ => .isFalse (by simp)

/-- Lines 1487-1493 for one mapped field: parse and quantize the subject's
raw attribute; percentage defaults to the sentinel and becomes the quotient
of the quantized numerator by the quantized denominator when a denominator
subject is declared and its value is positive.  `Except.error` models the
uncaught exceptions: `InvalidOperation` from `Decimal(...)` on an unparsable
value, `KeyError` on a missing `_by_id` entry, and the OGR error on an
undeclared field.  The quotient is persisted at the column's 8 fractional
digits (`persistPct`). -/
def computeCharVal (sfs : List SubjectField) (f : Feature) (sf : SubjectField) :
    Except PyErr (ℚ × Pct) := do
  let raw ← match getAttr f sf.field with
    | some v => Except.ok v
    | none => Except.error PyErr.ogrError
  let value ← match parseDec raw with
    | some q => Except.ok (quantizeHalfEven4 q)
    | none => Except.error PyErr.invalidOperation
  let percentage ← match sf.subject.percentage_denominator with
    | none => Except.ok Pct.sentinel
    | some dname => do
        let dfield ← match denomFieldFor sfs dname with
          | some df => Except.ok df
          | none => Except.error PyErr.keyError
        let draw ← match getAttr f dfield with
          | some v => Except.ok v
          | none => Except.error PyErr.ogrError
        let dval ← match parseDec draw with
          | some q => Except.ok (quantizeHalfEven4 q)
          | none => Except.error PyErr.invalidOperation
        if 0 < dval then Except.ok (persistPct (qDiv value dval))
        else Except.ok Pct.sentinel
  Except.ok (value, percentage)

/-- The quantized numerator a mapped field yields for its subject: the raw
attribute parsed and quantized at 4 fractional digits (line 1487). -/
def numberValOf (f : Feature) (sf : SubjectField) : Option ℚ :=
  ((getAttr f sf.field).bind parseDec).map quantizeHalfEven4

/-- The quantized denominator value for a mapped field whose subject declares
a percentage denominator: the denominator subject's own source field, read
from the same record and quantized the same way (lines 1489-1491). -/
def denomValOf (sfs : List SubjectField) (f : Feature) (sf : SubjectField) : Option ℚ :=
  sf.subject.percentage_denominator.bind fun dname =>
    (denomFieldFor sfs dname).bind fun dfield =>
      ((getAttr f dfield).bind parseDec).map quantizeHalfEven4

/-- Lines 1495-1501: upsert the `(geounit, subject)` Characteristic row —
update the first matching row in place, else append a new row. -/
def upsertChar (st : Store) (gid : ℕ) (sname : String) (n : ℚ) (p : Pct) : Store :=
  if (st.chars.find? (cMatch gid sname)).isSome then
    let chars' := updateFirst
      (cMatch gid sname)
      (fun c => { c with number := n, percentage := p })
      st.chars
    { st with chars := chars' }
  else
    { st with chars := st.chars ++ [⟨gid, sname, n, p⟩] }

/-- Lines 1483-1511, `set_geounit_characteristic`: iterate the mapped fields
(the `_by_id` reverse entries are skipped by the `endswith` guard; here the
iteration is directly over the field entries), computing and upserting each
subject's value.  A raised exception aborts the remaining fields and
propagates to the caller — the `try` in the source covers only `c.save()`,
whose failure handler (substitute the string `'0.0'` for `number`, keep the
computed percentage, log, continue) concerns store-level write failures and
is not reachable in this store model. -/
def set_geounit_characteristic (sfs : List SubjectField) (st : Store) (gid : ℕ)
    (f : Feature) : Except PyErr Store :=
  sfs.foldlM (fun st sf => do
    let v ← computeCharVal sfs f sf
    Except.ok (upsertChar st gid sf.subject.sname v.1 v.2)) st

/-- The ingestion configuration for one geolevel: the geolevel name, the
simplification tolerance, the subject field map, and whether a separate
attribute source list is configured (`config['attributes'] != None`), in
which case the per-feature loop skips inline characteristic assignment. -/
structure ImportCfg where
  level : String
  tolerance : ℚ
  subjectFields : List SubjectField
  attributesConfigured : Bool
deriving DecidableEq

/-- The identity key `(name, geolevel, portable_id, tree_code)` of a unit. -/
def unitKey (u : Geounit) : String × String × String × String :=
  (u.name, u.geolevel, u.portable_id, u.tree_code)

/-- The identity key the probe at lines 1377-1382 derives from a feature. -/
def featKey (cfg : ImportCfg) (f : Feature) : String × String × String × String :=
  (f.nameF, cfg.level, f.portableF, get_shape_tree f)

/-- Lines 1370-1451: one iteration of the feature loop.  Probe the store by
identity key; on a miss, normalize the geometry and create the unit (the
bare `except` at 1440 makes a normalization failure skip the feature); on a
hit, reuse `prefetch[0]`.  When no attribute source is configured, assign
characteristics inline for the probed-or-created unit. -/
def importFeature (norm : Feature → Option (Geom × Geom × (ℚ × ℚ)))
    (cfg : ImportCfg) (st : Store) (f : Feature) : Except PyErr Store :=
  match st.units.filter (fun u => unitKey u = featKey cfg f) with
  | [] =>
      match norm f with
      | none => Except.ok st
      | some (g, simple, center) =>
          let gu : Geounit :=
            { id := st.nextId, name := f.nameF, portable_id := f.portableF
              tree_code := get_shape_tree f, geolevel := cfg.level
              geom := g, simple := simple, center := center, child := none }
          let st' : Store :=
            { st with units := st.units ++ [gu], nextId := st.nextId + 1 }
          if cfg.attributesConfigured then Except.ok st'
          else set_geounit_characteristic cfg.subjectFields st' gu.id f
  | g :: _ =>
      if cfg.attributesConfigured then Except.ok st
      else set_geounit_characteristic cfg.subjectFields st g.id f

/-- The feature loop of `import_shape` over one source's feature stream. -/
def importRun (norm : Feature → Option (Geom × Geom × (ℚ × ℚ)))
    (cfg : ImportCfg) (st : Store) (fs : List Feature) : Except PyErr Store :=
  fs.foldlM (importFeature norm cfg) st

/-! ## Concrete instances (used by witnesses and counterexamples) -/

/-- Identity geometry operations: one admissible instantiation of the opaque
GEOS parameters, used to run the aggregator on concrete stores. -/
def exOps : GeomOps := ⟨fun _ g => g, fun g => g⟩

/-- Subject `S` with declared percentage denominator `T`. -/
def exSubjS : Subject := ⟨"S", some "T"⟩

/-- Subject `T`, no denominator. -/
def exSubjT : Subject := ⟨"T", none⟩

/-- A county-level unit `P` with tree code `"00"` and a two-cell geometry. -/
def exP : Geounit := ⟨0, "P", "p0", "00", "county", {0, 1}, ∅, (0, 0), none⟩

/-- Tract unit `A` under `P` (tree code `"0001"`), one-cell geometry. -/
def exA : Geounit := ⟨1, "A", "a1", "0001", "tract", {0}, ∅, (0, 0), none⟩

/-- Tract unit `B` under `P` (tree code `"0002"`), one-cell geometry. -/
def exB : Geounit := ⟨2, "B", "b2", "0002", "tract", {1}, ∅, (0, 0), none⟩

/-- Tract unit `C` under `P` (tree code `"0003"`) whose cell lies outside
`P`'s recorded geometry. -/
def exC : Geounit := ⟨1, "C", "c1", "0003", "tract", {2}, ∅, (0, 0), none⟩

/-- County unit `Q` (tree code `"99"`) with no tract under it. -/
def exQ : Geounit := ⟨3, "Q", "q0", "99", "county", {5}, ∅, (0, 0), none⟩

/-- A store holding `P`, its two tract children, and characteristic rows
giving subject `S` the child numbers 20/30 and subject `T` 40/60. -/
def exStore : Store :=
  ⟨[exP, exA, exB],
   [⟨1, "S", 20, .sentinel⟩, ⟨2, "S", 30, .sentinel⟩,
    ⟨1, "T", 40, .sentinel⟩, ⟨2, "T", 60, .sentinel⟩], 3⟩

/-- `exStore` with the childless county unit `Q` added. -/
def exStoreQ : Store :=
  ⟨[exP, exA, exB, exQ],
   [⟨1, "S", 20, .sentinel⟩, ⟨2, "S", 30, .sentinel⟩,
    ⟨1, "T", 40, .sentinel⟩, ⟨2, "T", 60, .sentinel⟩], 4⟩

/-- A store where the children's union (`{0}` from `A`) is strictly inside
`P`'s recorded geometry `{0, 1}`. -/
def exStoreShrunk : Store := ⟨[exP, exA], [], 2⟩

/-- A store where child `C` contributes a cell outside `P`'s recorded
geometry, so the one-sided difference is nonempty. -/
def exStoreGrown : Store := ⟨[exP, exC], [], 2⟩

/-- The `White`/`Total` subject-field configuration of the spec's worked
assignment example. -/
def exSfs : List SubjectField :=
  [⟨"WHITE", ⟨"White", some "Total"⟩⟩, ⟨"TOTAL", ⟨"Total", none⟩⟩]

/-- An empty store. -/
def exEmptyStore : Store := ⟨[], [], 0⟩

/-- The spec's worked example feature: `WHITE=45.12345`, `TOTAL=100.00000`. -/
def exFeatWT : Feature :=
  ⟨"u1", "p1", [("1", 2), ("23", 3)], [("WHITE", "45.12345"), ("TOTAL", "100.00000")]⟩

/-- A feature whose `WHITE` value `45.12346` separates half-even rounding
from truncation at 4 fractional digits. -/
def exFeat5 : Feature :=
  ⟨"u1", "p1", [], [("WHITE", "45.12346"), ("TOTAL", "100.00000")]⟩

/-- A feature whose `WHITE` value is unparsable as a number. -/
def exFeat8 : Feature :=
  ⟨"u1", "p1", [], [("WHITE", "n/a"), ("TOTAL", "100.00000")]⟩

/-- A second feature with a distinct identity key, for the ingestion runs. -/
def exFeatWT2 : Feature :=
  ⟨"u2", "p2", [("1", 2), ("24", 3)], [("WHITE", "10.5"), ("TOTAL", "21.0")]⟩

/-- A normalization pipeline instance: every feature normalizes to a fixed
one-cell geometry. -/
def exNorm : Feature → Option (Geom × Geom × (ℚ × ℚ)) := fun _ => some ({0}, {0}, (0, 0))

/-- The ingestion configuration of the examples: geolevel `block`, inline
characteristic assignment (no separate attribute sources). -/
def exCfg : ImportCfg := ⟨"block", 1, exSfs, false⟩

/-- The store produced by running the Characteristic Assigner for the spec's
worked example feature `exFeatWT` on an empty store (unit id 7): number
45.1234 and percentage 0.451234 for `White`, number 100 and the sentinel for
`Total`. -/
def exStoreWT : Store :=
  ⟨[], [⟨7, "White", mkRat 451234 10000, Pct.val (mkRat 451234 1000000)⟩,
        ⟨7, "Total", 100, Pct.sentinel⟩], 0⟩


/-- The store produced by ingesting the two-feature source
`[exFeatWT, exFeatWT2]` into the empty store with `exCfg`: two block units
with quantized numbers and truncated percentages. -/
def exStoreRun : Store :=
  ⟨[⟨0, "u1", "p1", "01023", "block", {0}, {0}, (0, 0), none⟩,
    ⟨1, "u2", "p2", "01024", "block", {0}, {0}, (0, 0), none⟩],
   [⟨0, "White", mkRat 451234 10000, Pct.val (mkRat 451234 1000000)⟩,
    ⟨0, "Total", 100, Pct.sentinel⟩,
    ⟨1, "White", mkRat 21 2, Pct.val (mkRat 1 2)⟩,
    ⟨1, "Total", 21, Pct.sentinel⟩], 2⟩

/-! ## Theorems

### The wrapper operations are the standard rational operations -/

theorem qOfInt_eq (n : ℤ) : qOfInt n = (n : ℚ) := by
  rw [qOfInt, Rat.divInt_eq_div]
  simp

theorem qAdd_eq (a b : ℚ) : qAdd a b = a + b := by
  have ha : ((a.den : ℤ) : ℚ) ≠ 0 := by exact_mod_cast a.den_nz
  have hb : ((b.den : ℤ) : ℚ) ≠ 0 := by exact_mod_cast b.den_nz
  rw [qAdd, Rat.divInt_eq_div]
  conv_rhs => rw [← Rat.num_div_den a, ← Rat.num_div_den b]
  push_cast
  field_simp

theorem qSub_eq (a b : ℚ) : qSub a b = a - b := by
  rw [qSub, qAdd_eq, sub_eq_add_neg]

theorem qMul_eq (a b : ℚ) : qMul a b = a * b := by
  have ha : ((a.den : ℤ) : ℚ) ≠ 0 := by exact_mod_cast a.den_nz
  have hb : ((b.den : ℤ) : ℚ) ≠ 0 := by exact_mod_cast b.den_nz
  rw [qMul, Rat.divInt_eq_div]
  conv_rhs => rw [← Rat.num_div_den a, ← Rat.num_div_den b]
  push_cast
  field_simp

theorem qDiv_eq (a b : ℚ) : qDiv a b = a / b := by
  have ha : ((a.den : ℤ) : ℚ) ≠ 0 := by exact_mod_cast a.den_nz
  rcases eq_or_ne b 0 with rfl | hb
  · simp [qDiv, Rat.divInt_eq_div]
  · have hbn : (b.num : ℚ) ≠ 0 := by
      simpa [Rat.num_eq_zero] using hb
    have hbd : ((b.den : ℤ) : ℚ) ≠ 0 := by exact_mod_cast b.den_nz
    rw [qDiv, Rat.divInt_eq_div]
    conv_rhs => rw [← Rat.num_div_den a, ← Rat.num_div_den b]
    push_cast
    field_simp

theorem qSum_eq (l : List ℚ) : qSum l = l.sum := by
  induction l with
  | nil => rfl
  | cons a l ih => rw [qSum, List.foldr_cons, qAdd_eq, ← qSum, ih, List.sum_cons]

theorem ratFloor_eq (q : ℚ) : q.floor = ⌊q⌋ := by
  rw [Rat.floor_def, Rat.floor_def']

theorem ratTruncZ_eq (q : ℚ) : ratTruncZ q = if 0 ≤ q then ⌊q⌋ else ⌈q⌉ := by
  rw [ratTruncZ]
  rcases le_or_lt 0 q with h | h
  · simp [h, ratFloor_eq]
  · simp only [not_le.mpr h, if_false, ratFloor_eq, Int.floor_neg, neg_neg]

/-! ### General store and list lemmas -/

theorem find?_map_of_pred {α : Type} (f : α → α) (p : α → Bool)
    (h : ∀ a, p (f a) = p a) (l : List α) :
    (l.map f).find? p = (l.find? p).map f := by
  induction l with
  | nil => rfl
  | cons a l ih =>
      by_cases hpa : p a
      · simp [List.find?_cons, h a, hpa, ih]
      · simp [List.find?_cons, h a, hpa, ih]

theorem find?_key_of_nodup {α β : Type} [DecidableEq β] (f : α → β) {l : List α}
    (hn : (l.map f).Nodup) {a : α} (ha : a ∈ l) :
    l.find? (fun x => f x = f a) = some a := by
  induction l with
  | nil => cases ha
  | cons b l ih =>
      simp only [List.map_cons, List.nodup_cons] at hn
      rcases List.mem_cons.mp ha with rfl | ha'
      · simp [List.find?_cons]
      · have hfb : f b ≠ f a := by
          intro he
          exact hn.1 (he ▸ List.mem_map_of_mem f ha')
        simp [List.find?_cons, hfb, ih hn.2 ha']

theorem aggregateSubjectStep_units (pids : List ℕ) (gid : ℕ) (acc : Store × ℕ)
    (s : Subject) :
    (aggregateSubjectStep pids gid acc s).1.units = acc.1.units ∧
    (aggregateSubjectStep pids gid acc s).1.nextId = acc.1.nextId := by
  rw [aggregateSubjectStep]
  rcases h : acc.1.chars.find? (cMatch gid s.sname) with _ | c
  · simp
  · simp only []
    split
    · simp
    · simp

theorem foldl_subjectStep_units (pids : List ℕ) (gid : ℕ) (subjects : List Subject)
    (acc : Store × ℕ) :
    ((subjects.foldl (aggregateSubjectStep pids gid) acc).1.units = acc.1.units) ∧
    ((subjects.foldl (aggregateSubjectStep pids gid) acc).1.nextId = acc.1.nextId) := by
  induction subjects generalizing acc with
  | nil => exact ⟨rfl, rfl⟩
  | cons s subjects ih =>
      rw [List.foldl_cons]
      rcases ih (aggregateSubjectStep pids gid acc s) with ⟨h1, h2⟩
      rcases aggregateSubjectStep_units pids gid acc s with ⟨h3, h4⟩
      exact ⟨h1.trans h3, h2.trans h4⟩

/-! ### Claims -/

/-- **C7.** The multi-polygon coercion `enforce_multi` satisfies, for every
input: a Polygon maps to the one-element MultiPolygon containing it; a
MultiPolygon maps to itself; any other non-empty geometry type maps to an
empty geometry collection carrying the input's SRID; Python `None` maps to
`None`. -/
theorem c7_enforce_multi_coercion :
    (∀ (srid : ℤ) (rings : List Ring),
        enforce_multi (some (PyGeom.polygon srid rings)) =
          some (PyGeom.multiPolygon srid [rings])) ∧
    (∀ (srid : ℤ) (ps : List (List Ring)),
        enforce_multi (some (PyGeom.multiPolygon srid ps)) =
          some (PyGeom.multiPolygon srid ps)) ∧
    (∀ g : PyGeom, g.pyTruthy →
        g.geomType ≠ "Polygon" → g.geomType ≠ "MultiPolygon" →
        enforce_multi (some g) = some (empty_geom g.sridOf)) ∧
    enforce_multi none = none := by
  refine ⟨?_, ?_, ?_, rfl⟩
  · intro srid rings
    simp [enforce_multi, PyGeom.pyTruthy, PyGeom.pyLen, PyGeom.geomType]
  · intro srid ps
    cases ps with
    | nil => simp [enforce_multi, PyGeom.pyTruthy, PyGeom.pyLen]
    | cons h t => simp [enforce_multi, PyGeom.pyTruthy, PyGeom.pyLen, PyGeom.geomType]
  · intro g htr h1 h2
    cases g <;>
      simp_all [enforce_multi, PyGeom.geomType, empty_geom, PyGeom.sridOf]

/-- Witness for C7: a concrete non-empty Point is truthy, is neither polygon
type, and is coerced to the empty collection with its SRID. -/
theorem c7_enforce_multi_coercion_witness :
    enforce_multi (some (PyGeom.point 4326 (some (1, 2)))) =
      some (empty_geom 4326) :=
  c7_enforce_multi_coercion.2.2.1 (PyGeom.point 4326 (some (1, 2)))
    (by decide) (by decide) (by decide)

/-- **C5** (code bug).  The Characteristic Assigner does *not* truncate
toward zero: because `'ROUND_DOWN'` is passed as the (ignored) context
argument of the `Decimal` constructor rather than as `quantize`'s rounding
argument, the code quantizes `45.12346` half-even to `45.1235` and stores
that, while truncation at 4 fractional digits — what the claim and the
spec describe — gives `45.1234`. -/
theorem c5_rounding_bug_eval :
    (set_geounit_characteristic exSfs exEmptyStore 7 exFeat5).toOption.bind
        (fun st => charNumberOf st 7 "White") = some (mkRat 451235 10000) ∧
    quantizeHalfEven4 (mkRat 4512346 100000) = mkRat 451235 10000 ∧
    truncFrac 4 (mkRat 4512346 100000) = mkRat 451234 10000 ∧
    (mkRat 451235 10000 : ℚ) ≠ mkRat 451234 10000 := by decide

/-- **C2** (code bug).  On a parent with child sums 50 for subject `S` and
100 for its declared denominator subject `T`, the renesting statistics step
stores percentage 1 for `S` — the source recomputes `denominator_data` from
`qset`, the numerator query set, instead of the freshly built denominator
query set `dset` — whereas the claimed quotient of the two child sums is
1/2.  The stored child sums themselves (50 and 100) are correct. -/
theorem c2_denominator_uses_numerator_sum :
    charNumberOf (aggregate_unit exOps exStore exP 1 "tract" [exSubjS, exSubjT]).1
        0 "S" = some 50 ∧
    charNumberOf (aggregate_unit exOps exStore exP 1 "tract" [exSubjS, exSubjT]).1
        0 "T" = some 100 ∧
    charPctOf (aggregate_unit exOps exStore exP 1 "tract" [exSubjS, exSubjT]).1
        0 "S" = some (Pct.val 1) ∧
    Pct.val (1 : ℚ) ≠ Pct.val (mkRat 50 100) := by decide

/-- Counterexample to **C3** as stated: on a store where the children's
union `{0}` is strictly contained in `P`'s recorded geometry `{0, 1}`, the
two areas differ (1 vs 2) yet `union.difference(existing)` is empty, so the
code leaves the geometry untouched and the geometry-modified counter at 0 —
the "two areas differ" reading of the trigger is false; only the one-sided
difference-area reading matches the code. -/
theorem c3_counterexample_shrunken_union :
    (unionaggOf (parentunitsOf exStoreShrunk exP "tract") = some ({0} : Geom)) ∧
    (({0} : Geom).card ≠ exP.geom.card) ∧
    (aggregate_unit exOps exStoreShrunk exP 1 "tract" []).2.1 = 0 ∧
    ((aggregate_unit exOps exStoreShrunk exP 1 "tract" []).1.units.find?
        (fun u => u.id = 0)).map (·.geom) = some exP.geom := by decide

/-- Counterexample to **C8** as stated: a feature whose `WHITE` attribute is
the unparsable string `"n/a"` makes the Characteristic Assigner raise
`decimal.InvalidOperation` — the parse at line 1487 sits outside the only
`try` block (which wraps `c.save()`), so no zero is substituted, no row is
written, and the exception propagates out of the per-feature loop instead
of processing continuing. -/
theorem c8_counterexample_unparsable_aborts :
    set_geounit_characteristic exSfs exEmptyStore 7 exFeat8 =
      Except.error PyErr.invalidOperation := by decide

/-- **C10.** Every renesting step first persists the `child` pointer of every
child-geolevel unit whose tree code extends the processed unit's tree code
(`parentunits.update(child=geounit)` at line 793): in the resulting store the
id sequence is unchanged and exactly the tree-matched units point at the
processed unit — and when the union aggregate then comes back `None` the step
returns with *only* that child-pointer write applied: characteristics,
`nextId` and both counters untouched. -/
theorem c10_child_pointer_update (ops : GeomOps) (st : Store) (g : Geounit)
    (tol : ℚ) (plvl : String) (subjects : List Subject)
    (hmem : g ∈ st.units) (hids : NodupIds st) (hlvl : g.geolevel ≠ plvl) :
    ((aggregate_unit ops st g tol plvl subjects).1.units.map (fun u => (u.id, u.child)) =
       st.units.map (fun u => (u.id, if uMatch g plvl u then some g.id else u.child))) ∧
    (parentunitsOf st g plvl = [] →
       aggregate_unit ops st g tol plvl subjects =
         ({ st with units := st.units.map (fun u =>
              if uMatch g plvl u then { u with child := some g.id } else u) }, 0, 0)) := by
  constructor
  · rcases h : unionaggOf (parentunitsOf st g plvl) with _ | newgeo
    · simp only [aggregate_unit, h]
      rw [List.map_map]
      apply List.map_congr_left
      intro u hu
      by_cases hm : uMatch g plvl u <;> simp [hm]
    · simp only [aggregate_unit, h]
      by_cases hcard : (newgeo \ g.geom).card ≠ 0
      · rw [if_pos hcard]
        rw [(foldl_subjectStep_units _ _ _ _).1]
        simp only [List.map_map]
        apply List.map_congr_left
        intro u hu
        by_cases hid : u.id = g.id
        · have hu_eq : u = g :=
            List.inj_on_of_nodup_map hids hu hmem hid
          subst hu_eq
          have hm : uMatch u plvl u = false := by
            simp [uMatch, hlvl]
          simp [hm, hid]
        · by_cases hm : uMatch g plvl u <;> simp [hm, hid]
      · rw [if_neg hcard]
        rw [(foldl_subjectStep_units _ _ _ _).1]
        rw [List.map_map]
        apply List.map_congr_left
        intro u hu
        by_cases hm : uMatch g plvl u <;> simp [hm]
  · intro hpar
    simp only [aggregate_unit, hpar]
    rfl

/-- Witness for C10: the childless county unit `Q` of `exStoreQ` — the child
pointers of the (empty) tree-matched set are "written", the union aggregate
is `None`, and the whole step returns the child-updated store with both
counters zero. -/
theorem c10_child_pointer_update_witness :
    ((aggregate_unit exOps exStoreQ exQ 1 "tract" [exSubjS, exSubjT]).1.units.map
        (fun u => (u.id, u.child)) =
      exStoreQ.units.map
        (fun u => (u.id, if uMatch exQ "tract" u then some exQ.id else u.child))) ∧
    aggregate_unit exOps exStoreQ exQ 1 "tract" [exSubjS, exSubjT] =
      ({ exStoreQ with units := exStoreQ.units.map (fun u =>
           if uMatch exQ "tract" u then { u with child := some exQ.id } else u) }, 0, 0) :=
  ⟨(c10_child_pointer_update exOps exStoreQ exQ 1 "tract" [exSubjS, exSubjT]
      (by decide) (by decide) (by decide)).1,
   (c10_child_pointer_update exOps exStoreQ exQ 1 "tract" [exSubjS, exSubjT]
      (by decide) (by decide) (by decide)).2 (by decide)⟩

/-- **C3** (amended).  During renesting, for a parent unit whose children's
union aggregate is non-`None`: exactly when the area of
`union.difference(existingGeometry)` is nonzero — not when the two areas
merely differ, cf. `c3_counterexample_shrunken_union` — the unit's geometry
becomes the multi-polygon coercion of the union and its simplified geometry
the coercion of a fresh simplification at the geolevel's tolerance, both
persisted in the same `save()`, and the geometry-modified counter for the
step is exactly 1; when that difference area is zero the stored pair and the
counter 0 are untouched. -/
theorem c3_amended_difference_trigger (ops : GeomOps) (st : Store) (g : Geounit)
    (tol : ℚ) (plvl : String) (subjects : List Subject) (newgeo : Geom)
    (hmem : g ∈ st.units) (hids : NodupIds st)
    (hU : unionaggOf (parentunitsOf st g plvl) = some newgeo) :
    ((newgeo \ g.geom).card ≠ 0 →
       geomPairOf (aggregate_unit ops st g tol plvl subjects).1 g.id =
         some (ops.enforceMultiG newgeo, ops.enforceMultiG (ops.simplifyG tol newgeo)) ∧
       (aggregate_unit ops st g tol plvl subjects).2.1 = 1) ∧
    ((newgeo \ g.geom).card = 0 →
       geomPairOf (aggregate_unit ops st g tol plvl subjects).1 g.id =
         geomPairOf st g.id ∧
       (aggregate_unit ops st g tol plvl subjects).2.1 = 0) := by
  have hids' : (st.units.map (fun u => u.id)).Nodup := hids
  have hfind : st.units.find? (fun u => u.id = g.id) = some g :=
    find?_key_of_nodup (fun u => u.id) hids' hmem
  constructor
  · intro hcard
    constructor
    · simp only [geomPairOf, aggregate_unit, hU]
      rw [if_pos hcard]
      rw [(foldl_subjectStep_units _ _ _ _).1]
      rw [find?_map_of_pred _ _ (by
        intro u
        by_cases hid : u.id = g.id <;> simp [hid])]
      rw [find?_map_of_pred _ _ (by
        intro u
        by_cases hm : uMatch g plvl u <;> simp [hm])]
      rw [hfind]
      by_cases hm : uMatch g plvl g <;> simp [hm]
    · simp only [aggregate_unit, hU]
      rw [if_pos hcard]
  · intro hcard
    have hcard' : ¬ (newgeo \ g.geom).card ≠ 0 := by simp [hcard]
    constructor
    · simp only [geomPairOf, aggregate_unit, hU]
      rw [if_neg hcard']
      rw [(foldl_subjectStep_units _ _ _ _).1]
      rw [find?_map_of_pred _ _ (by
        intro u
        by_cases hm : uMatch g plvl u <;> simp [hm])]
      rw [hfind]
      by_cases hm : uMatch g plvl g <;> simp [hm]
    · simp only [aggregate_unit, hU]
      rw [if_neg hcard']

/-- Witness for the amended C3: on `exStoreGrown` the children's union `{2}`
sticks out of `P`'s geometry `{0,1}` (difference area 1 ≠ 0), so the stored
pair becomes the coerced union and its coerced simplification and the
geometry counter is exactly 1. -/
theorem c3_amended_difference_trigger_witness :
    geomPairOf (aggregate_unit exOps exStoreGrown exP 1 "tract" []).1 0 =
      some ({2}, {2}) ∧
    (aggregate_unit exOps exStoreGrown exP 1 "tract" []).2.1 = 1 :=
  (c3_amended_difference_trigger exOps exStoreGrown exP 1 "tract" [] {2}
      (by decide) (by decide) (by decide)).1 (by decide)


theorem cMatch_iff (gid : ℕ) (sn : String) (c : Characteristic) :
    cMatch gid sn c = true ↔ c.geounit = gid ∧ c.subject = sn := by
  simp [cMatch]

theorem find?_updateFirst_self {α : Type} (p : α → Bool) (f : α → α) (l : List α)
    (hf : ∀ a, p a = true → p (f a) = true) :
    (updateFirst p f l).find? p = (l.find? p).map f := by
  induction l with
  | nil => rfl
  | cons a l ih =>
      by_cases hpa : p a
      · simp [updateFirst, hpa, List.find?_cons, hf a hpa]
      · simp [updateFirst, hpa, List.find?_cons, ih]

theorem find?_updateFirst_other {α : Type} (p q : α → Bool) (f : α → α) (l : List α)
    (h : ∀ a, q a = true → p a = false ∧ p (f a) = false) :
    (updateFirst q f l).find? p = l.find? p := by
  induction l with
  | nil => rfl
  | cons a l ih =>
      by_cases hqa : q a
      · rcases h a hqa with ⟨h1, h2⟩
        simp [updateFirst, hqa, List.find?_cons, h1, h2]
      · by_cases hpa : p a
        · simp [updateFirst, hqa, List.find?_cons, hpa]
        · simp [updateFirst, hqa, List.find?_cons, hpa, ih]

theorem find?_append_right {α : Type} (p : α → Bool) (l₁ l₂ : List α)
    (h : l₁.find? p = none) :
    (l₁ ++ l₂).find? p = l₂.find? p := by
  induction l₁ with
  | nil => rfl
  | cons a l ih =>
      by_cases hpa : p a
      · simp [List.find?_cons, hpa] at h
      · simp only [List.find?_cons, hpa] at h
        simp only [List.cons_append, List.find?_cons, hpa]
        exact ih h

theorem find?_append_single {α : Type} (p : α → Bool) (l : List α) (a : α)
    (ha : p a = false) :
    (l ++ [a]).find? p = l.find? p := by
  induction l with
  | nil => simp [List.find?, ha]
  | cons b l ih =>
      by_cases hpb : p b
      · simp [List.find?_cons, hpb]
      · simp only [List.cons_append, List.find?_cons, hpb]
        exact ih

theorem find?_upsert_self (st : Store) (gid : ℕ) (sn : String) (n : ℚ) (p : Pct) :
    (upsertChar st gid sn n p).chars.find? (cMatch gid sn) =
      some ⟨gid, sn, n, p⟩ := by
  rw [upsertChar]
  rcases h : st.chars.find? (cMatch gid sn) with _ | c
  · simp only [h, Option.isSome_none, Bool.false_eq_true, if_false]
    rw [find?_append_right _ _ _ h]
    simp [cMatch]
  · simp only [h, Option.isSome_some, if_true]
    rw [find?_updateFirst_self _ _ _ (by
      intro a ha
      rcases (cMatch_iff gid sn a).mp ha with ⟨h1, h2⟩
      simp [cMatch, h1, h2])]
    rw [h]
    have hc := (cMatch_iff gid sn c).mp (List.find?_some h)
    cases c
    simp_all

theorem find?_upsert_other (st : Store) (gid : ℕ) (sn : String) (n : ℚ) (p : Pct)
    (gid' : ℕ) (sn' : String) (hne : ¬(gid' = gid ∧ sn' = sn)) :
    (upsertChar st gid sn n p).chars.find? (cMatch gid' sn') =
      st.chars.find? (cMatch gid' sn') := by
  have hkey : ∀ a : Characteristic, cMatch gid sn a = true → cMatch gid' sn' a = false := by
    intro a ha
    rcases (cMatch_iff gid sn a).mp ha with ⟨h1, h2⟩
    by_contra hcon
    simp only [Bool.not_eq_false] at hcon
    rcases (cMatch_iff gid' sn' a).mp hcon with ⟨h1', h2'⟩
    exact hne ⟨h1 ▸ h1'.symm ▸ rfl, h2 ▸ h2'.symm ▸ rfl⟩
  rw [upsertChar]
  rcases h : st.chars.find? (cMatch gid sn) with _ | c
  · simp only [h, Option.isSome_none, Bool.false_eq_true, if_false]
    apply find?_append_single
    exact hkey _ (by simp [cMatch])
  · simp only [h, Option.isSome_some, if_true]
    apply find?_updateFirst_other
    intro a ha
    refine ⟨hkey a ha, ?_⟩
    rcases (cMatch_iff gid sn a).mp ha with ⟨h1, h2⟩
    have : cMatch gid sn ({ a with number := n, percentage := p }) = true := by
      simp [cMatch, h1, h2]
    exact hkey _ this

theorem upsertChar_units (st : Store) (gid : ℕ) (sn : String) (n : ℚ) (p : Pct) :
    (upsertChar st gid sn n p).units = st.units ∧
    (upsertChar st gid sn n p).nextId = st.nextId := by
  rw [upsertChar]
  split <;> simp

theorem computeCharVal_ok_char (sfs : List SubjectField) (f : Feature)
    (sf : SubjectField) (v : ℚ × Pct)
    (h : computeCharVal sfs f sf = Except.ok v) :
    numberValOf f sf = some v.1 ∧
      ((sf.subject.percentage_denominator = none ∧ v.2 = Pct.sentinel) ∨
       (∃ D, denomValOf sfs f sf = some D ∧
          v.2 = if 0 < D then persistPct (qDiv v.1 D) else Pct.sentinel)) := by
  rw [computeCharVal] at h
  rcases hraw : getAttr f sf.field with _ | raw <;> rw [hraw] at h <;>
      simp only [Bind.bind, Except.bind] at h
  · exact Except.noConfusion h
  · rcases hq : parseDec raw with _ | q <;> rw [hq] at h <;>
        simp only [Bind.bind, Except.bind] at h
    · exact Except.noConfusion h
    · rcases hden : sf.subject.percentage_denominator with _ | dname <;> rw [hden] at h <;>
          simp only [Bind.bind, Except.bind] at h
      · injection h with h2
        subst h2
        exact ⟨by simp [numberValOf, hraw, hq], Or.inl ⟨rfl, rfl⟩⟩
      · rcases hdf : denomFieldFor sfs dname with _ | df <;> rw [hdf] at h <;>
            simp only [Bind.bind, Except.bind] at h
        · exact Except.noConfusion h
        · rcases hdraw : getAttr f df with _ | draw <;> rw [hdraw] at h <;>
              simp only [Bind.bind, Except.bind] at h
          · exact Except.noConfusion h
          · rcases hdq : parseDec draw with _ | dq <;> rw [hdq] at h <;>
                simp only [Bind.bind, Except.bind] at h
            · exact Except.noConfusion h
            · by_cases hpos : 0 < quantizeHalfEven4 dq
              · rw [if_pos hpos] at h
                injection h with h2
                subst h2
                refine ⟨by simp [numberValOf, hraw, hq], Or.inr
                  ⟨quantizeHalfEven4 dq, ?_, ?_⟩⟩
                · simp [denomValOf, hden, hdf, hdraw, hdq]
                · exact (if_pos hpos).symm
              · rw [if_neg hpos] at h
                injection h with h2
                subst h2
                refine ⟨by simp [numberValOf, hraw, hq], Or.inr
                  ⟨quantizeHalfEven4 dq, ?_, ?_⟩⟩
                · simp [denomValOf, hden, hdf, hdraw, hdq]
                · exact (if_neg hpos).symm

theorem setCharFold_frame (sfs : List SubjectField) (f : Feature) (gid : ℕ)
    (l : List SubjectField) (st st' : Store)
    (h : l.foldlM (fun st sf => do
        let v ← computeCharVal sfs f sf
        Except.ok (upsertChar st gid sf.subject.sname v.1 v.2)) st = Except.ok st')
    (gid' : ℕ) (sn' : String)
    (hns : ∀ sf ∈ l, ¬(gid' = gid ∧ sn' = sf.subject.sname)) :
    st'.chars.find? (cMatch gid' sn') = st.chars.find? (cMatch gid' sn') := by
  induction l generalizing st with
  | nil =>
      rw [List.foldlM_nil] at h
      injection h with h2
      rw [h2]
  | cons a l ih =>
      rw [List.foldlM_cons] at h
      rcases hc : computeCharVal sfs f a with e | v <;> rw [hc] at h <;>
          simp only [Bind.bind, Except.bind] at h
      · exact Except.noConfusion h
      · have htail := ih (upsertChar st gid a.subject.sname v.1 v.2) h
          (fun sf hsf => hns sf (List.mem_cons_of_mem a hsf))
        rw [htail]
        exact find?_upsert_other _ _ _ _ _ _ _ (hns a (List.mem_cons_self a l))

theorem setCharFold_units (sfs : List SubjectField) (f : Feature) (gid : ℕ)
    (l : List SubjectField) (st st' : Store)
    (h : l.foldlM (fun st sf => do
        let v ← computeCharVal sfs f sf
        Except.ok (upsertChar st gid sf.subject.sname v.1 v.2)) st = Except.ok st') :
    st'.units = st.units ∧ st'.nextId = st.nextId := by
  induction l generalizing st with
  | nil =>
      rw [List.foldlM_nil] at h
      injection h with h2
      rw [h2]
      exact ⟨rfl, rfl⟩
  | cons a l ih =>
      rw [List.foldlM_cons] at h
      rcases hc : computeCharVal sfs f a with e | v <;> rw [hc] at h <;>
          simp only [Bind.bind, Except.bind] at h
      · exact Except.noConfusion h
      · rcases ih (upsertChar st gid a.subject.sname v.1 v.2) h with ⟨h1, h2⟩
        rcases upsertChar_units st gid a.subject.sname v.1 v.2 with ⟨h3, h4⟩
        exact ⟨h1.trans h3, h2.trans h4⟩

theorem setCharFold_post (sfs : List SubjectField) (f : Feature) (gid : ℕ)
    (l : List SubjectField) (st st' : Store)
    (hnodup : (l.map (fun sf => sf.subject.sname)).Nodup)
    (h : l.foldlM (fun st sf => do
        let v ← computeCharVal sfs f sf
        Except.ok (upsertChar st gid sf.subject.sname v.1 v.2)) st = Except.ok st')
    {sf : SubjectField} (hsf : sf ∈ l) :
    ∃ v, computeCharVal sfs f sf = Except.ok v ∧
      st'.chars.find? (cMatch gid sf.subject.sname) =
        some ⟨gid, sf.subject.sname, v.1, v.2⟩ := by
  induction l generalizing st with
  | nil => cases hsf
  | cons a l ih =>
      simp only [List.map_cons, List.nodup_cons] at hnodup
      rw [List.foldlM_cons] at h
      rcases hc : computeCharVal sfs f a with e | v <;> rw [hc] at h <;>
          simp only [Bind.bind, Except.bind] at h
      · exact Except.noConfusion h
      · rcases List.mem_cons.mp hsf with rfl | hsf'
        · refine ⟨v, hc, ?_⟩
          have hframe := setCharFold_frame sfs f gid l
            (upsertChar st gid sf.subject.sname v.1 v.2) st' h gid sf.subject.sname
            (fun sf' hsf' hcontra =>
              hnodup.1 (hcontra.2 ▸ List.mem_map_of_mem (fun x => x.subject.sname) hsf'))
          rw [hframe]
          exact find?_upsert_self _ _ _ _ _
        · exact ih (upsertChar st gid a.subject.sname v.1 v.2) hnodup.2 h hsf'

theorem setCharFold_error (sfs : List SubjectField) (f : Feature) (gid : ℕ)
    (l : List SubjectField) (st : Store) {sf : SubjectField} (hsf : sf ∈ l)
    (hbad : ∀ w, computeCharVal sfs f sf ≠ Except.ok w) :
    ∃ e, l.foldlM (fun st sf => do
        let v ← computeCharVal sfs f sf
        Except.ok (upsertChar st gid sf.subject.sname v.1 v.2)) st = Except.error e := by
  induction l generalizing st with
  | nil => cases hsf
  | cons a l ih =>
      rcases hc : computeCharVal sfs f a with e | v
      · refine ⟨e, ?_⟩
        rw [List.foldlM_cons, hc]
        simp [Bind.bind, Except.bind]
      · rcases List.mem_cons.mp hsf with rfl | hsf'
        · exact absurd hc (hbad v)
        · rcases ih (upsertChar st gid a.subject.sname v.1 v.2) hsf' with ⟨e, he⟩
          refine ⟨e, ?_⟩
          rw [List.foldlM_cons, hc]
          simpa [Bind.bind, Except.bind] using he


/-- **C6.** At leaf attribute assignment, for every mapped Subject with a
declared percentage denominator: with quantized numerator N and quantized
denominator D read from the same record, the stored percentage is
`N / D` — persisted at the column's 8 fractional digits, `persistPct` —
when `D > 0` and the zero sentinel otherwise; a Subject with no declared
denominator always gets the zero sentinel. -/
theorem c6_percentage_law (sfs : List SubjectField) (st st' : Store) (gid : ℕ)
    (f : Feature) (sf : SubjectField)
    (hnodup : (sfs.map (fun sf => sf.subject.sname)).Nodup)
    (hsf : sf ∈ sfs)
    (hok : set_geounit_characteristic sfs st gid f = Except.ok st') :
    (sf.subject.percentage_denominator = none →
       charPctOf st' gid sf.subject.sname = some Pct.sentinel) ∧
    (∀ N D, numberValOf f sf = some N → denomValOf sfs f sf = some D →
       charPctOf st' gid sf.subject.sname =
         some (if 0 < D then persistPct (N / D) else Pct.sentinel)) := by
  rw [set_geounit_characteristic] at hok
  rcases setCharFold_post sfs f gid sfs st st' hnodup hok hsf with ⟨v, hv, hfind⟩
  rcases computeCharVal_ok_char sfs f sf v hv with ⟨hnum, hrest⟩
  constructor
  · intro hden
    rw [charPctOf, hfind]
    rcases hrest with ⟨_, hsent⟩ | ⟨D, hD, _⟩
    · simp [hsent]
    · rw [denomValOf, hden] at hD
      simp at hD
  · intro N D hN hD
    rw [charPctOf, hfind]
    rcases hrest with ⟨hden, _⟩ | ⟨D', hD', hv2⟩
    · rw [denomValOf, hden] at hD
      simp at hD
    · have hNv : N = v.1 := by
        rw [hnum] at hN
        exact (Option.some.inj hN).symm
      have hDD : D = D' := by
        rw [hD'] at hD
        exact (Option.some.inj hD).symm
      subst hNv
      subst hDD
      simp [hv2, qDiv_eq]

/-- Witness for C6 at the spec's worked example (`WHITE=45.12345`,
`TOTAL=100.00000`): White stores percentage 45.1234/100 (= 0.451234 at 8
digits) and the denominator subject Total itself stores the sentinel. -/
theorem c6_percentage_law_witness :
    charPctOf exStoreWT 7 "White" =
      some (if 0 < (100 : ℚ) then
              persistPct (mkRat 451234 10000 / 100) else Pct.sentinel) ∧
    charPctOf exStoreWT 7 "Total" = some Pct.sentinel :=
  ⟨(c6_percentage_law exSfs exEmptyStore exStoreWT 7 exFeatWT
      ⟨"WHITE", ⟨"White", some "Total"⟩⟩ (by decide) (by decide) (by decide)).2
      (mkRat 451234 10000) 100 (by decide) (by decide),
   (c6_percentage_law exSfs exEmptyStore exStoreWT 7 exFeatWT
      ⟨"TOTAL", ⟨"Total", none⟩⟩ (by decide) (by decide) (by decide)).1 rfl⟩

/-- **C8** (amended).  A mapped attribute value that is unparsable as a
number makes the Characteristic Assigner raise: the `Decimal` parse sits
outside the only `try` block, so instead of substituting zero and
continuing, `set_geounit_characteristic` propagates an exception and the
batch aborts (cf. `c8_counterexample_unparsable_aborts`). -/
theorem c8_amended_parse_error_propagates (sfs : List SubjectField) (st : Store)
    (gid : ℕ) (f : Feature) (sf : SubjectField) (raw : String)
    (hsf : sf ∈ sfs) (hraw : getAttr f sf.field = some raw)
    (hbad : parseDec raw = none) :
    ∃ e, set_geounit_characteristic sfs st gid f = Except.error e := by
  rw [set_geounit_characteristic]
  apply setCharFold_error sfs f gid sfs st hsf
  intro w hw
  rw [computeCharVal, hraw] at hw
  simp only [Bind.bind, Except.bind] at hw
  rw [hbad] at hw
  simp only [Bind.bind, Except.bind] at hw
  exact Except.noConfusion hw

/-- Witness for the amended C8: the concrete feature with `WHITE="n/a"`. -/
theorem c8_amended_parse_error_propagates_witness :
    ∃ e, set_geounit_characteristic exSfs exEmptyStore 7 exFeat8 =
      Except.error e :=
  c8_amended_parse_error_propagates exSfs exEmptyStore 7 exFeat8
    ⟨"WHITE", ⟨"White", some "Total"⟩⟩ "n/a" (by decide) (by decide) (by decide)


/-! ### C1: the renesting sum law

The statistics loop writes, for each subject, exactly the untruncated sum of
the tree-prefix-matched finer units' `number`s into the snapshot unit's
Characteristic row; the surrounding pass touches no other row and never
changes a unit's id, tree code or geolevel.  The lemmas below walk that
structure from the single subject step up to the whole pass. -/


theorem filter_updateFirst_other {α : Type} (p q : α → Bool) (f : α → α) (l : List α)
    (h : ∀ a, q a = true → p a = false ∧ p (f a) = false) :
    (updateFirst q f l).filter p = l.filter p := by
  induction l with
  | nil => rfl
  | cons a l ih =>
      by_cases hqa : q a
      · rcases h a hqa with ⟨h1, h2⟩
        simp [updateFirst, hqa, List.filter_cons, h1, h2]
      · by_cases hpa : p a <;>
          simp [updateFirst, hqa, List.filter_cons, hpa, ih]

theorem aggregateSubjectStep_find_self (pids : List ℕ) (gid : ℕ) (acc : Store × ℕ)
    (s : Subject) :
    (((aggregateSubjectStep pids gid acc s).1.chars.find? (cMatch gid s.sname)).map
        (fun c => (c.geounit, c.subject, c.number))) =
      some (gid, s.sname, childSum acc.1 pids s.sname) := by
  have hupd : ∀ (x : ℚ) (pc : Pct),
      ∀ a, cMatch gid s.sname a = true →
        cMatch gid s.sname { a with number := x, percentage := pc } = true := by
    intro x pc a ha
    rcases (cMatch_iff gid s.sname a).mp ha with ⟨h1, h2⟩
    simp [cMatch, h1, h2]
  rw [aggregateSubjectStep, childSum]
  rcases hq : acc.1.chars.filter (fun c => c.geounit ∈ pids ∧ c.subject = s.sname)
      with _ | ⟨c0, qrest⟩
  · simp only [hq]
    rcases hfind : acc.1.chars.find? (cMatch gid s.sname) with _ | mychar
    · rw [find?_append_right _ _ _ hfind]
      simp [cMatch, qSum]
    · simp only [Option.isNone_none, Option.getD_none, true_or, if_true]
      rw [find?_updateFirst_self _ _ _ (hupd _ _)]
      rw [hfind]
      have hc := (cMatch_iff gid s.sname mychar).mp (List.find?_some hfind)
      cases mychar
      simp_all [qSum]
  · simp only [hq]
    rcases hfind : acc.1.chars.find? (cMatch gid s.sname) with _ | mychar
    · rw [find?_append_right _ _ _ hfind]
      simp [cMatch]
    · by_cases hne : qSum ((c0 :: qrest).map (·.number)) ≠ mychar.number
      · simp only [Option.isNone_some, Option.getD_some, Bool.false_eq_true, false_or]
        rw [if_pos hne]
        rw [find?_updateFirst_self _ _ _ (hupd _ _)]
        rw [hfind]
        have hc := (cMatch_iff gid s.sname mychar).mp (List.find?_some hfind)
        cases mychar
        simp_all
      · simp only [Option.isNone_some, Option.getD_some, Bool.false_eq_true, false_or]
        rw [if_neg hne]
        push_neg at hne
        rw [hfind]
        have hc := (cMatch_iff gid s.sname mychar).mp (List.find?_some hfind)
        cases mychar
        simp_all

theorem aggregateSubjectStep_find_other (pids : List ℕ) (gid : ℕ) (acc : Store × ℕ)
    (s : Subject) (gid' : ℕ) (sn' : String)
    (hne : ¬(gid' = gid ∧ sn' = s.sname)) :
    (aggregateSubjectStep pids gid acc s).1.chars.find? (cMatch gid' sn') =
      acc.1.chars.find? (cMatch gid' sn') := by
  have hkey : ∀ a : Characteristic, cMatch gid s.sname a = true →
      cMatch gid' sn' a = false := by
    intro a ha
    rcases (cMatch_iff gid s.sname a).mp ha with ⟨h1, h2⟩
    by_contra hcon
    simp only [Bool.not_eq_false] at hcon
    rcases (cMatch_iff gid' sn' a).mp hcon with ⟨h1', h2'⟩
    exact hne ⟨h1 ▸ h1'.symm ▸ rfl, h2 ▸ h2'.symm ▸ rfl⟩
  rw [aggregateSubjectStep]
  rcases hfind : acc.1.chars.find? (cMatch gid s.sname) with _ | mychar
  · simp only []
    apply find?_append_single
    exact hkey _ (by simp [cMatch])
  · simp only []
    split
    · apply find?_updateFirst_other
      intro a ha
      refine ⟨hkey a ha, ?_⟩
      rcases (cMatch_iff gid s.sname a).mp ha with ⟨h1, h2⟩
      exact hkey _ (by simp [cMatch, h1, h2])
    · rfl

theorem aggregateSubjectStep_filter_frame (pids : List ℕ) (gid : ℕ) (acc : Store × ℕ)
    (s : Subject) (pids' : List ℕ) (sn' : String) (hgid : gid ∉ pids') :
    (aggregateSubjectStep pids gid acc s).1.chars.filter
        (fun c => c.geounit ∈ pids' ∧ c.subject = sn') =
      acc.1.chars.filter (fun c => c.geounit ∈ pids' ∧ c.subject = sn') := by
  have hkey : ∀ a : Characteristic, cMatch gid s.sname a = true →
      decide (a.geounit ∈ pids' ∧ a.subject = sn') = false := by
    intro a ha
    rcases (cMatch_iff gid s.sname a).mp ha with ⟨h1, h2⟩
    simp only [decide_eq_false_iff_not, not_and]
    intro hmem
    exact absurd (h1 ▸ hmem) hgid
  have hsingle : ∀ (x : ℚ) (pc : Pct),
      List.filter (fun c => decide (c.geounit ∈ pids' ∧ c.subject = sn'))
        [(⟨gid, s.sname, x, pc⟩ : Characteristic)] = [] := by
    intro x pc
    simp only [List.filter_cons, List.filter_nil]
    have hc : decide (gid ∈ pids' ∧ s.sname = sn') = false := by
      simp only [decide_eq_false_iff_not, not_and]
      intro hmem
      exact absurd hmem hgid
    simp [hc]
  rw [aggregateSubjectStep]
  rcases hfind : acc.1.chars.find? (cMatch gid s.sname) with _ | mychar
  · simp only []
    rw [List.filter_append, hsingle, List.append_nil]
  · simp only []
    split
    · apply filter_updateFirst_other
      intro a ha
      refine ⟨hkey a ha, ?_⟩
      rcases (cMatch_iff gid s.sname a).mp ha with ⟨h1, h2⟩
      exact hkey _ (by simp [cMatch, h1, h2])
    · rfl

theorem aggStatsFold_find_frame (pids : List ℕ) (gid : ℕ) (subjects : List Subject)
    (acc : Store × ℕ) (gid' : ℕ) (sn' : String)
    (hne : ∀ s ∈ subjects, ¬(gid' = gid ∧ sn' = s.sname)) :
    (subjects.foldl (aggregateSubjectStep pids gid) acc).1.chars.find?
        (cMatch gid' sn') =
      acc.1.chars.find? (cMatch gid' sn') := by
  induction subjects generalizing acc with
  | nil => rfl
  | cons a subs ih =>
      rw [List.foldl_cons]
      rw [ih (aggregateSubjectStep pids gid acc a)
        (fun s hs => hne s (List.mem_cons_of_mem a hs))]
      exact aggregateSubjectStep_find_other pids gid acc a gid' sn'
        (hne a (List.mem_cons_self a subs))

theorem aggStatsFold_filter_frame (pids : List ℕ) (gid : ℕ) (subjects : List Subject)
    (acc : Store × ℕ) (pids' : List ℕ) (sn' : String) (hgid : gid ∉ pids') :
    (subjects.foldl (aggregateSubjectStep pids gid) acc).1.chars.filter
        (fun c => c.geounit ∈ pids' ∧ c.subject = sn') =
      acc.1.chars.filter (fun c => c.geounit ∈ pids' ∧ c.subject = sn') := by
  induction subjects generalizing acc with
  | nil => rfl
  | cons a subs ih =>
      rw [List.foldl_cons]
      rw [ih (aggregateSubjectStep pids gid acc a)]
      exact aggregateSubjectStep_filter_frame pids gid acc a pids' sn' hgid

theorem aggStatsFold_find_self (pids : List ℕ) (gid : ℕ) (subjects : List Subject)
    (acc : Store × ℕ)
    (hnames : (subjects.map (·.sname)).Nodup) (hgid : gid ∉ pids)
    {s : Subject} (hs : s ∈ subjects) :
    (((subjects.foldl (aggregateSubjectStep pids gid) acc).1.chars.find?
        (cMatch gid s.sname)).map (fun c => (c.geounit, c.subject, c.number))) =
      some (gid, s.sname, childSum acc.1 pids s.sname) := by
  induction subjects generalizing acc with
  | nil => cases hs
  | cons a subs ih =>
      simp only [List.map_cons, List.nodup_cons] at hnames
      rw [List.foldl_cons]
      rcases List.mem_cons.mp hs with rfl | hs'
      · rw [aggStatsFold_find_frame pids gid subs _ gid s.sname
          (fun s' hs' hcontra =>
            hnames.1 (hcontra.2 ▸ List.mem_map_of_mem (·.sname) hs'))]
        exact aggregateSubjectStep_find_self pids gid acc s
      · have hsum : childSum (aggregateSubjectStep pids gid acc a).1 pids s.sname =
            childSum acc.1 pids s.sname := by
          rw [childSum, childSum,
            aggregateSubjectStep_filter_frame pids gid acc a pids s.sname hgid]
        rw [← hsum]
        exact ih (aggregateSubjectStep pids gid acc a) hnames.2 hs'

-- local copies of the units-preservation lemmas (exist unprimed in the main file)

theorem unionaggOf_nil : unionaggOf [] = none := rfl

theorem unionaggOf_cons (u0 : Geounit) (us : List Geounit) :
    unionaggOf (u0 :: us) =
      some ((u0 :: us).foldl (fun a u => a ∪ u.geom) ∅) := rfl

theorem childSum_congr (st₁ st₂ : Store) (pids : List ℕ) (sn : String)
    (h : st₁.chars = st₂.chars) :
    childSum st₁ pids sn = childSum st₂ pids sn := by
  rw [childSum, childSum, h]

theorem unitsKey_congr (st₁ st₂ : Store) (h : st₁.units = st₂.units) :
    unitsKey st₁ = unitsKey st₂ := by
  rw [unitsKey, unitsKey, h]

theorem key_unique (st : Store) (hids : NodupIds st) (g : Geounit)
    (hg : (g.id, g.tree_code, g.geolevel) ∈ unitsKey st) :
    ∀ u ∈ st.units, u.id = g.id →
      u.tree_code = g.tree_code ∧ u.geolevel = g.geolevel := by
  intro u hu hid
  rcases List.mem_map.mp hg with ⟨v, hv, hpv⟩
  obtain ⟨h1, h2, h3⟩ : v.id = g.id ∧ v.tree_code = g.tree_code ∧
      v.geolevel = g.geolevel := by
    simpa [Prod.ext_iff] using hpv
  have huv : u = v :=
    List.inj_on_of_nodup_map hids hu hv (by rw [hid, h1])
  exact ⟨huv ▸ h2, huv ▸ h3⟩

theorem parentIds_of_key (l : List Geounit) (g : Geounit) (plvl : String) :
    ((l.filter (uMatch g plvl)).map (·.id)) =
      (((l.map fun u => (u.id, u.tree_code, u.geolevel)).filter
        (fun k => strStartsWith g.tree_code k.2.1 ∧ k.2.2 = plvl)).map (·.1)) := by
  induction l with
  | nil => rfl
  | cons u l ih =>
      have hum : uMatch g plvl u = true ↔
          (strStartsWith g.tree_code u.tree_code = true ∧ u.geolevel = plvl) := by
        simp [uMatch]
      simp only [List.map_cons, List.filter_cons]
      by_cases hm : (strStartsWith g.tree_code u.tree_code = true ∧ u.geolevel = plvl)
      · rw [if_pos (hum.mpr hm), if_pos (by simpa using hm)]
        simp only [List.map_cons, ih]
      · rw [if_neg (fun h => hm (hum.mp h)), if_neg (by simpa using hm)]
        exact ih

theorem parentIds_eq_of_unitsKey (st₁ st₂ : Store) (g : Geounit) (plvl : String)
    (h : unitsKey st₁ = unitsKey st₂) :
    (parentunitsOf st₁ g plvl).map (·.id) = (parentunitsOf st₂ g plvl).map (·.id) := by
  rw [parentunitsOf, parentunitsOf, parentIds_of_key, parentIds_of_key]
  rw [show st₁.units.map (fun u => (u.id, u.tree_code, u.geolevel)) =
    st₂.units.map (fun u => (u.id, u.tree_code, u.geolevel)) from h]

theorem ids_eq_key_fst (st : Store) :
    st.units.map (·.id) = (unitsKey st).map (·.1) := by
  rw [unitsKey, List.map_map]
  rfl

theorem aggregate_unit_find_self (ops : GeomOps) (st : Store) (g : Geounit) (tol : ℚ)
    (plvl : String) (subjects : List Subject)
    (hnames : (subjects.map (·.sname)).Nodup)
    (hgid : g.id ∉ (parentunitsOf st g plvl).map (·.id))
    (hpe : parentunitsOf st g plvl ≠ [])
    {s : Subject} (hs : s ∈ subjects) :
    (((aggregate_unit ops st g tol plvl subjects).1.chars.find?
        (cMatch g.id s.sname)).map (fun c => (c.geounit, c.subject, c.number))) =
      some (g.id, s.sname,
        childSum st ((parentunitsOf st g plvl).map (·.id)) s.sname) := by
  rw [aggregate_unit]
  rcases hpu : parentunitsOf st g plvl with _ | ⟨u0, us⟩
  · exact absurd hpu hpe
  · rw [hpu] at hgid
    simp only [hpu, unionaggOf_cons]
    split
    · rw [aggStatsFold_find_self _ _ _ _ hnames hgid hs]
      exact congrArg (fun v => some (g.id, s.sname, v)) (childSum_congr _ st _ _ rfl)
    · rw [aggStatsFold_find_self _ _ _ _ hnames hgid hs]
      exact congrArg (fun v => some (g.id, s.sname, v)) (childSum_congr _ st _ _ rfl)

theorem aggregate_unit_find_frame (ops : GeomOps) (st : Store) (g : Geounit) (tol : ℚ)
    (plvl : String) (subjects : List Subject) (gid' : ℕ) (sn' : String)
    (hne : gid' ≠ g.id) :
    (aggregate_unit ops st g tol plvl subjects).1.chars.find? (cMatch gid' sn') =
      st.chars.find? (cMatch gid' sn') := by
  rw [aggregate_unit]
  rcases hpu : parentunitsOf st g plvl with _ | ⟨u0, us⟩
  · simp only [hpu, unionaggOf_nil]
  · simp only [hpu, unionaggOf_cons]
    split
    · rw [aggStatsFold_find_frame _ _ _ _ _ _ (fun s _ h => hne h.1)]
    · rw [aggStatsFold_find_frame _ _ _ _ _ _ (fun s _ h => hne h.1)]

theorem aggregate_unit_filter_frame (ops : GeomOps) (st : Store) (g : Geounit)
    (tol : ℚ) (plvl : String) (subjects : List Subject) (pids' : List ℕ)
    (sn' : String) (hg : g.id ∉ pids') :
    (aggregate_unit ops st g tol plvl subjects).1.chars.filter
        (fun c => c.geounit ∈ pids' ∧ c.subject = sn') =
      st.chars.filter (fun c => c.geounit ∈ pids' ∧ c.subject = sn') := by
  rw [aggregate_unit]
  rcases hpu : parentunitsOf st g plvl with _ | ⟨u0, us⟩
  · simp only [hpu, unionaggOf_nil]
  · simp only [hpu, unionaggOf_cons]
    split
    · rw [aggStatsFold_filter_frame _ _ _ _ _ _ hg]
    · rw [aggStatsFold_filter_frame _ _ _ _ _ _ hg]

theorem aggregate_unit_unitsKey (ops : GeomOps) (st : Store) (g : Geounit) (tol : ℚ)
    (plvl : String) (subjects : List Subject)
    (hg : (g.id, g.tree_code, g.geolevel) ∈ unitsKey st) (hids : NodupIds st) :
    unitsKey (aggregate_unit ops st g tol plvl subjects).1 = unitsKey st := by
  have hchild : unitsKey { st with units := st.units.map fun u =>
      if (uMatch g plvl u) then { u with child := some g.id } else u } = unitsKey st := by
    rw [unitsKey, unitsKey]
    simp only [List.map_map]
    apply List.map_congr_left
    intro u _
    by_cases hm : uMatch g plvl u = true <;> simp [hm]
  rw [aggregate_unit]
  rcases hpu : parentunitsOf st g plvl with _ | ⟨u0, us⟩
  · simp only [hpu, unionaggOf_nil]
    exact hchild
  · simp only [hpu, unionaggOf_cons]
    split
    · rw [unitsKey_congr _ _ ((foldl_subjectStep_units _ _ _ _).1)]
      rw [unitsKey, unitsKey]
      simp only [List.map_map]
      apply List.map_congr_left
      intro u hu
      by_cases h1 : uMatch g plvl u = true
      · by_cases h2 : u.id = g.id
        · rcases key_unique st hids g hg u hu h2 with ⟨ht, hl⟩
          simp [h1, h2, ht, hl]
        · simp [h1, h2]
      · by_cases h2 : u.id = g.id
        · rcases key_unique st hids g hg u hu h2 with ⟨ht, hl⟩
          simp [h1, h2, ht, hl]
        · simp [h1, h2]
    · rw [unitsKey_congr _ _ ((foldl_subjectStep_units _ _ _ _).1)]
      exact hchild

theorem renest_eq_fold (ops : GeomOps) (st : Store) (lvl plvl : String) (tol : ℚ)
    (subjects : List Subject) :
    renest ops st lvl plvl tol subjects =
      (st.units.filter (·.geolevel = lvl)).foldl
        (fun acc g =>
          ((aggregate_unit ops acc.1 g tol plvl subjects).1,
           acc.2.1 + (aggregate_unit ops acc.1 g tol plvl subjects).2.1,
           acc.2.2 + (aggregate_unit ops acc.1 g tol plvl subjects).2.2))
        (st, 0, 0) := rfl

theorem renestFold_unitsKey (ops : GeomOps) (tol : ℚ) (plvl : String)
    (subjects : List Subject) (L : List Geounit) (st : Store) (c : ℕ × ℕ)
    (hgs : ∀ g ∈ L, (g.id, g.tree_code, g.geolevel) ∈ unitsKey st)
    (hids : NodupIds st) :
    unitsKey (L.foldl
        (fun acc g =>
          ((aggregate_unit ops acc.1 g tol plvl subjects).1,
           acc.2.1 + (aggregate_unit ops acc.1 g tol plvl subjects).2.1,
           acc.2.2 + (aggregate_unit ops acc.1 g tol plvl subjects).2.2))
        (st, c)).1 = unitsKey st := by
  induction L generalizing st c with
  | nil => rfl
  | cons g L ih =>
      rw [List.foldl_cons]
      have hk := aggregate_unit_unitsKey ops st g tol plvl subjects
        (hgs g (List.mem_cons_self g L)) hids
      have hids' : NodupIds (aggregate_unit ops st g tol plvl subjects).1 := by
        have h1 := ids_eq_key_fst (aggregate_unit ops st g tol plvl subjects).1
        have h2 := ids_eq_key_fst st
        show ((aggregate_unit ops st g tol plvl subjects).1.units.map (·.id)).Nodup
        rw [h1, hk, ← h2]
        exact hids
      have hstep := ih ((aggregate_unit ops st g tol plvl subjects).1)
        (c.1 + (aggregate_unit ops st g tol plvl subjects).2.1,
         c.2 + (aggregate_unit ops st g tol plvl subjects).2.2)
        (fun g' hg' => by rw [hk]; exact hgs g' (List.mem_cons_of_mem g hg'))
        hids'
      exact hstep.trans hk

theorem renestFold_find_frame (ops : GeomOps) (tol : ℚ) (plvl : String)
    (subjects : List Subject) (L : List Geounit) (st : Store) (c : ℕ × ℕ)
    (gid' : ℕ) (sn' : String) (hne : ∀ g ∈ L, gid' ≠ g.id) :
    (L.foldl
        (fun acc g =>
          ((aggregate_unit ops acc.1 g tol plvl subjects).1,
           acc.2.1 + (aggregate_unit ops acc.1 g tol plvl subjects).2.1,
           acc.2.2 + (aggregate_unit ops acc.1 g tol plvl subjects).2.2))
        (st, c)).1.chars.find? (cMatch gid' sn') =
      st.chars.find? (cMatch gid' sn') := by
  induction L generalizing st c with
  | nil => rfl
  | cons g L ih =>
      rw [List.foldl_cons]
      have hstep := ih ((aggregate_unit ops st g tol plvl subjects).1)
        (c.1 + (aggregate_unit ops st g tol plvl subjects).2.1,
         c.2 + (aggregate_unit ops st g tol plvl subjects).2.2)
        (fun g' hg' => hne g' (List.mem_cons_of_mem g hg'))
      exact hstep.trans (aggregate_unit_find_frame ops st g tol plvl subjects gid' sn'
        (hne g (List.mem_cons_self g L)))

theorem renestFold_filter_frame (ops : GeomOps) (tol : ℚ) (plvl : String)
    (subjects : List Subject) (L : List Geounit) (st : Store) (c : ℕ × ℕ)
    (pids' : List ℕ) (sn' : String) (hp : ∀ g ∈ L, g.id ∉ pids') :
    (L.foldl
        (fun acc g =>
          ((aggregate_unit ops acc.1 g tol plvl subjects).1,
           acc.2.1 + (aggregate_unit ops acc.1 g tol plvl subjects).2.1,
           acc.2.2 + (aggregate_unit ops acc.1 g tol plvl subjects).2.2))
        (st, c)).1.chars.filter (fun c => c.geounit ∈ pids' ∧ c.subject = sn') =
      st.chars.filter (fun c => c.geounit ∈ pids' ∧ c.subject = sn') := by
  induction L generalizing st c with
  | nil => rfl
  | cons g L ih =>
      rw [List.foldl_cons]
      have hstep := ih ((aggregate_unit ops st g tol plvl subjects).1)
        (c.1 + (aggregate_unit ops st g tol plvl subjects).2.1,
         c.2 + (aggregate_unit ops st g tol plvl subjects).2.2)
        (fun g' hg' => hp g' (List.mem_cons_of_mem g hg'))
      exact hstep.trans (aggregate_unit_filter_frame ops st g tol plvl subjects
        pids' sn' (hp g (List.mem_cons_self g L)))

theorem not_mem_parentIds_of_geolevel_ne (st : Store) (hids : NodupIds st)
    (P : Geounit) (plvl : String) {u : Geounit} (hu : u ∈ st.units)
    (hne : u.geolevel ≠ plvl) :
    u.id ∉ (parentunitsOf st P plvl).map (·.id) := by
  intro hin
  rcases List.mem_map.mp hin with ⟨v, hv, hvid⟩
  have hv' := List.mem_filter.mp hv
  have hvl : v.geolevel = plvl := by
    have hm := hv'.2
    simp only [uMatch, Bool.decide_and, Bool.and_eq_true, decide_eq_true_eq] at hm
    exact hm.2
  have huv : v = u := List.inj_on_of_nodup_map hids hv'.1 hu hvid
  exact hne (huv ▸ hvl)

/-- **C1.**  After a renesting pass over geolevel `lvl` (children taken from
the distinct geolevel `plvl`), every snapshot unit `P` at `lvl` with a
nonempty parent-set holds, for every Subject `S` of the pass, a
Characteristic `number` equal to the exact rational sum of its children's
stored `number`s for `S` — no re-truncation is applied during aggregation.
Hypotheses: distinct unit ids (primary-key integrity), distinct subject
names, and `lvl ≠ plvl` (the pass aggregates a coarser level from a finer
one). -/
theorem c1_sum_law (ops : GeomOps) (st : Store) (lvl plvl : String) (tol : ℚ)
    (subjects : List Subject) (P : Geounit) (S : Subject)
    (hids : NodupIds st) (hlvl : lvl ≠ plvl)
    (hnames : (subjects.map (·.sname)).Nodup)
    (hmem : P ∈ st.units) (hPlvl : P.geolevel = lvl)
    (hS : S ∈ subjects)
    (hpe : parentunitsOf st P plvl ≠ []) :
    charNumberOf (renest ops st lvl plvl tol subjects).1 P.id S.sname =
      some (childSum (renest ops st lvl plvl tol subjects).1
        ((parentunitsOf (renest ops st lvl plvl tol subjects).1 P plvl).map (·.id))
        S.sname) := by
  have hgsAll : ∀ g ∈ st.units.filter (·.geolevel = lvl),
      (g.id, g.tree_code, g.geolevel) ∈ unitsKey st := fun g hg =>
    List.mem_map_of_mem _ (List.mem_of_mem_filter hg)
  have hkeyAll : unitsKey (renest ops st lvl plvl tol subjects).1 = unitsKey st := by
    rw [renest_eq_fold]
    exact renestFold_unitsKey ops tol plvl subjects _ st (0, 0) hgsAll hids
  have hpidsAll :
      (parentunitsOf (renest ops st lvl plvl tol subjects).1 P plvl).map (·.id) =
      (parentunitsOf st P plvl).map (·.id) :=
    parentIds_eq_of_unitsKey _ _ P plvl hkeyAll
  have hsnap_not : ∀ g ∈ st.units.filter (·.geolevel = lvl),
      g.id ∉ (parentunitsOf st P plvl).map (·.id) := by
    intro g hg
    have hgl : g.geolevel = lvl := by
      have h := (List.mem_filter.mp hg).2
      simpa using h
    exact not_mem_parentIds_of_geolevel_ne st hids P plvl (List.mem_of_mem_filter hg)
      (by rw [hgl]; exact hlvl)
  have hPinL : P ∈ st.units.filter (·.geolevel = lvl) :=
    List.mem_filter.mpr ⟨hmem, by simp [hPlvl]⟩
  obtain ⟨L₁, L₂, hLsplit⟩ := List.append_of_mem hPinL
  have hLids : ((st.units.filter (·.geolevel = lvl)).map (·.id)).Nodup :=
    List.Nodup.sublist ((List.filter_sublist st.units).map (·.id)) hids
  have hPnotL₂ : ∀ g ∈ L₂, P.id ≠ g.id := by
    intro g hg heq
    have h1 : ((L₁ ++ P :: L₂).map (·.id)).Nodup := hLsplit ▸ hLids
    rw [List.map_append, List.map_cons] at h1
    have h2 := (List.nodup_append.mp h1).2.1
    have h3 := (List.nodup_cons.mp h2).1
    exact h3 (by rw [heq]; exact List.mem_map_of_mem (·.id) hg)
  rw [hpidsAll, renest_eq_fold, hLsplit, List.foldl_append, List.foldl_cons]
  set A := List.foldl
    (fun acc g =>
      ((aggregate_unit ops acc.1 g tol plvl subjects).1,
       acc.2.1 + (aggregate_unit ops acc.1 g tol plvl subjects).2.1,
       acc.2.2 + (aggregate_unit ops acc.1 g tol plvl subjects).2.2))
    (st, 0, 0) L₁ with hA
  have hgs₁ : ∀ g ∈ L₁, (g.id, g.tree_code, g.geolevel) ∈ unitsKey st := fun g hg =>
    hgsAll g (by rw [hLsplit]; exact List.mem_append_left _ hg)
  have hkey₁ : unitsKey A.1 = unitsKey st := by
    rw [hA]
    exact renestFold_unitsKey ops tol plvl subjects L₁ st (0, 0) hgs₁ hids
  have hids₁ : NodupIds A.1 := by
    show (A.1.units.map (·.id)).Nodup
    rw [ids_eq_key_fst, hkey₁, ← ids_eq_key_fst]
    exact hids
  have hpids₁ : (parentunitsOf A.1 P plvl).map (·.id) =
      (parentunitsOf st P plvl).map (·.id) :=
    parentIds_eq_of_unitsKey _ _ P plvl hkey₁
  have hpe₁ : parentunitsOf A.1 P plvl ≠ [] := by
    intro h
    apply hpe
    have hnil : (parentunitsOf st P plvl).map (·.id) = [] := by
      rw [← hpids₁, h]
      rfl
    exact List.map_eq_nil.mp hnil
  have hgidP : P.id ∉ (parentunitsOf A.1 P plvl).map (·.id) := by
    rw [hpids₁]
    exact hsnap_not P hPinL
  have hself := aggregate_unit_find_self ops A.1 P tol plvl subjects hnames hgidP hpe₁ hS
  rw [hpids₁] at hself
  have hfr := renestFold_find_frame ops tol plvl subjects L₂
    (aggregate_unit ops A.1 P tol plvl subjects).1
    (A.2.1 + (aggregate_unit ops A.1 P tol plvl subjects).2.1,
     A.2.2 + (aggregate_unit ops A.1 P tol plvl subjects).2.2)
    P.id S.sname hPnotL₂
  have hfr2 := renestFold_filter_frame ops tol plvl subjects L₂
    (aggregate_unit ops A.1 P tol plvl subjects).1
    (A.2.1 + (aggregate_unit ops A.1 P tol plvl subjects).2.1,
     A.2.2 + (aggregate_unit ops A.1 P tol plvl subjects).2.2)
    ((parentunitsOf st P plvl).map (·.id)) S.sname
    (fun g hg => hsnap_not g
      (by rw [hLsplit]; exact List.mem_append_right _ (List.mem_cons_of_mem P hg)))
  have hcs₂ : childSum (List.foldl
      (fun acc g =>
        ((aggregate_unit ops acc.1 g tol plvl subjects).1,
         acc.2.1 + (aggregate_unit ops acc.1 g tol plvl subjects).2.1,
         acc.2.2 + (aggregate_unit ops acc.1 g tol plvl subjects).2.2))
      ((aggregate_unit ops A.1 P tol plvl subjects).1,
       A.2.1 + (aggregate_unit ops A.1 P tol plvl subjects).2.1,
       A.2.2 + (aggregate_unit ops A.1 P tol plvl subjects).2.2) L₂).1
      ((parentunitsOf st P plvl).map (·.id)) S.sname =
      childSum (aggregate_unit ops A.1 P tol plvl subjects).1
      ((parentunitsOf st P plvl).map (·.id)) S.sname := by
    rw [childSum, childSum, hfr2]
  have hcs₁ : childSum (aggregate_unit ops A.1 P tol plvl subjects).1
      ((parentunitsOf st P plvl).map (·.id)) S.sname =
      childSum A.1 ((parentunitsOf st P plvl).map (·.id)) S.sname := by
    rw [childSum, childSum,
      aggregate_unit_filter_frame ops A.1 P tol plvl subjects _ _ (hsnap_not P hPinL)]
  rw [charNumberOf, hfr, hcs₂, hcs₁]
  rcases Option.map_eq_some'.mp hself with ⟨c, hc, hcp⟩
  have h3 : c.number = childSum A.1 ((parentunitsOf st P plvl).map (·.id)) S.sname := by
    have h4 := congrArg (fun t => t.2.2) hcp
    simpa using h4
  rw [hc]
  simp only [Option.map_some']
  rw [h3]

/-- Witness for C1: renesting `exStore`'s county level from its tracts puts
`20 + 30 = 50` into `P`'s row for subject `S`. -/
theorem c1_sum_law_witness :
    charNumberOf (renest exOps exStore "county" "tract" 1 [exSubjS, exSubjT]).1
        exP.id exSubjS.sname =
      some (childSum (renest exOps exStore "county" "tract" 1 [exSubjS, exSubjT]).1
        ((parentunitsOf (renest exOps exStore "county" "tract" 1 [exSubjS, exSubjT]).1
          exP "tract").map (·.id)) exSubjS.sname) :=
  c1_sum_law exOps exStore "county" "tract" 1 [exSubjS, exSubjT] exP exSubjS
    (by decide) (by decide) (by decide) (by decide) (by decide) (by decide) (by decide)


/-! ### C4: ingestion probes by identity key and re-ingestion is idempotent

`importFeature` only ever appends units, and appends only on a probe miss;
a re-run over the same feature stream therefore finds every key already in
place (or skips the same normalization failures) and leaves the unit table
untouched. -/

theorem setCharFold_ok_all (sfs : List SubjectField) (f : Feature) (gid : ℕ)
    (l : List SubjectField) (st st' : Store)
    (h : l.foldlM (fun st sf => do
        let v ← computeCharVal sfs f sf
        Except.ok (upsertChar st gid sf.subject.sname v.1 v.2)) st = Except.ok st') :
    ∀ sf ∈ l, ∃ v, computeCharVal sfs f sf = Except.ok v := by
  induction l generalizing st with
  | nil => intro sf hsf; cases hsf
  | cons a l ih =>
      rw [List.foldlM_cons] at h
      rcases hc : computeCharVal sfs f a with e | v <;> rw [hc] at h <;>
          simp only [Bind.bind, Except.bind] at h
      · exact Except.noConfusion h
      · intro sf hsf
        rcases List.mem_cons.mp hsf with rfl | hsf'
        · exact ⟨v, hc⟩
        · exact ih (upsertChar st gid a.subject.sname v.1 v.2) h sf hsf'

theorem setCharFold_total (sfs : List SubjectField) (f : Feature) (gid : ℕ)
    (l : List SubjectField) (st : Store)
    (hall : ∀ sf ∈ l, ∃ v, computeCharVal sfs f sf = Except.ok v) :
    ∃ st', l.foldlM (fun st sf => do
        let v ← computeCharVal sfs f sf
        Except.ok (upsertChar st gid sf.subject.sname v.1 v.2)) st = Except.ok st' := by
  induction l generalizing st with
  | nil => exact ⟨st, rfl⟩
  | cons a l ih =>
      rcases hall a (List.mem_cons_self a l) with ⟨v, hv⟩
      rcases ih (upsertChar st gid a.subject.sname v.1 v.2)
        (fun sf hsf => hall sf (List.mem_cons_of_mem a hsf)) with ⟨st', hst'⟩
      refine ⟨st', ?_⟩
      rw [List.foldlM_cons, hv]
      simpa [Bind.bind, Except.bind] using hst'

theorem importFeature_units_append (norm : Feature → Option (Geom × Geom × (ℚ × ℚ)))
    (cfg : ImportCfg) (st : Store) (f : Feature) (st' : Store)
    (h : importFeature norm cfg st f = Except.ok st') :
    ∃ L, st'.units = st.units ++ L ∧ ∀ u ∈ L, unitKey u = featKey cfg f := by
  rw [importFeature] at h
  rcases hfilt : st.units.filter (fun u => unitKey u = featKey cfg f) with _ | ⟨g, gs⟩ <;>
      rw [hfilt] at h <;> simp only [] at h
  · rcases hn : norm f with _ | ⟨⟨gg, sim, cen⟩⟩ <;> rw [hn] at h <;>
        simp only [] at h
    · injection h with h2
      exact ⟨[], by rw [← h2, List.append_nil], by intro u hu; cases hu⟩
    · by_cases hattr : cfg.attributesConfigured = true
      · rw [if_pos hattr] at h
        injection h with h2
        refine ⟨[⟨st.nextId, f.nameF, f.portableF, get_shape_tree f, cfg.level,
          gg, sim, cen, none⟩], by rw [← h2], ?_⟩
        intro u hu
        rcases List.mem_singleton.mp hu with rfl
        rfl
      · rw [if_neg hattr, set_geounit_characteristic] at h
        have hu := (setCharFold_units _ _ _ _ _ _ h).1
        refine ⟨[⟨st.nextId, f.nameF, f.portableF, get_shape_tree f, cfg.level,
          gg, sim, cen, none⟩], by rw [hu], ?_⟩
        intro u hu'
        rcases List.mem_singleton.mp hu' with rfl
        rfl
  · by_cases hattr : cfg.attributesConfigured = true
    · rw [if_pos hattr] at h
      injection h with h2
      exact ⟨[], by rw [← h2, List.append_nil], by intro u hu; cases hu⟩
    · rw [if_neg hattr, set_geounit_characteristic] at h
      have hu := (setCharFold_units _ _ _ _ _ _ h).1
      exact ⟨[], by rw [hu, List.append_nil], by intro u hu'; cases hu'⟩

theorem importRun_units_append (norm : Feature → Option (Geom × Geom × (ℚ × ℚ)))
    (cfg : ImportCfg) (fs : List Feature) (st st' : Store)
    (h : importRun norm cfg st fs = Except.ok st') :
    ∃ L, st'.units = st.units ++ L ∧
      ∀ u ∈ L, ∃ f ∈ fs, unitKey u = featKey cfg f := by
  induction fs generalizing st with
  | nil =>
      rw [importRun, List.foldlM_nil] at h
      injection h with h2
      exact ⟨[], by rw [← h2, List.append_nil], by intro u hu; cases hu⟩
  | cons f fs ih =>
      rw [importRun, List.foldlM_cons] at h
      rcases hstep : importFeature norm cfg st f with e | T <;> rw [hstep] at h <;>
          simp only [Bind.bind, Except.bind] at h
      · exact Except.noConfusion h
      · rcases ih T h with ⟨L₂, hL₂, hmem₂⟩
        rcases importFeature_units_append norm cfg st f T hstep with ⟨L₁, hL₁, hmem₁⟩
        refine ⟨L₁ ++ L₂, by rw [hL₂, hL₁, List.append_assoc], ?_⟩
        intro u hu
        rcases List.mem_append.mp hu with h1 | h2
        · exact ⟨f, List.mem_cons_self f fs, hmem₁ u h1⟩
        · rcases hmem₂ u h2 with ⟨f', hf', hk⟩
          exact ⟨f', List.mem_cons_of_mem f hf', hk⟩

theorem importFeature_nodupKeys (norm : Feature → Option (Geom × Geom × (ℚ × ℚ)))
    (cfg : ImportCfg) (st : Store) (f : Feature) (st' : Store)
    (h : importFeature norm cfg st f = Except.ok st')
    (hk : (st.units.map unitKey).Nodup) :
    (st'.units.map unitKey).Nodup := by
  rcases importFeature_units_append norm cfg st f st' h with ⟨L, hL, hkeys⟩
  rcases hL' : L with _ | ⟨u0, us⟩
  · rw [hL, hL', List.append_nil]
    exact hk
  · -- a unit is created only on a probe miss, so its key is absent
    rw [importFeature] at h
    rcases hfilt : st.units.filter (fun u => unitKey u = featKey cfg f)
        with _ | ⟨g, gs⟩ <;> rw [hfilt] at h <;> simp only [] at h
    · have habs : featKey cfg f ∉ st.units.map unitKey := by
        intro hin
        rcases List.mem_map.mp hin with ⟨v, hv, hkv⟩
        have := List.filter_eq_nil.mp hfilt v hv
        simp [hkv] at this
      have husk : ∀ u ∈ L, unitKey u = featKey cfg f := hL' ▸ hkeys
      -- the created list is the single fresh unit
      rcases hn : norm f with _ | ⟨⟨gg, sim, cen⟩⟩ <;> rw [hn] at h <;>
          simp only [] at h
      · injection h with h2
        have h3 : st.units = st.units ++ L := by
          conv_lhs => rw [h2, hL]
        have hLnil : L = [] := by
          have h4 := congrArg List.length h3
          simp at h4
          exact h4
        rw [hLnil] at hL'
        exact List.noConfusion hL'
      · have hunits : st'.units = st.units ++
            [⟨st.nextId, f.nameF, f.portableF, get_shape_tree f, cfg.level,
              gg, sim, cen, none⟩] := by
          by_cases hattr : cfg.attributesConfigured = true
          · rw [if_pos hattr] at h
            injection h with h2
            rw [← h2]
          · rw [if_neg hattr, set_geounit_characteristic] at h
            exact (setCharFold_units _ _ _ _ _ _ h).1
        rw [hunits, List.map_append]
        rw [List.nodup_append]
        refine ⟨hk, List.nodup_singleton _, ?_⟩
        intro a ha hb
        rw [List.map_singleton, List.mem_singleton] at hb
        rw [hb] at ha
        exact habs ha
    · -- probe hit: no unit is created, contradicting L ≠ []
      have hunits : st'.units = st.units := by
        by_cases hattr : cfg.attributesConfigured = true
        · rw [if_pos hattr] at h
          injection h with h2
          rw [← h2]
        · rw [if_neg hattr, set_geounit_characteristic] at h
          exact (setCharFold_units _ _ _ _ _ _ h).1
      rw [hunits]
      exact hk

theorem importRun_nodupKeys (norm : Feature → Option (Geom × Geom × (ℚ × ℚ)))
    (cfg : ImportCfg) (fs : List Feature) (st st' : Store)
    (h : importRun norm cfg st fs = Except.ok st')
    (hk : (st.units.map unitKey).Nodup) :
    (st'.units.map unitKey).Nodup := by
  induction fs generalizing st with
  | nil =>
      rw [importRun, List.foldlM_nil] at h
      injection h with h2
      rw [← h2]
      exact hk
  | cons f fs ih =>
      rw [importRun, List.foldlM_cons] at h
      rcases hstep : importFeature norm cfg st f with e | T <;> rw [hstep] at h <;>
          simp only [Bind.bind, Except.bind] at h
      · exact Except.noConfusion h
      · exact ih T h (importFeature_nodupKeys norm cfg st f T hstep hk)

theorem importRun_probe_good (norm : Feature → Option (Geom × Geom × (ℚ × ℚ)))
    (cfg : ImportCfg) (fs : List Feature) (st st₁ : Store)
    (h : importRun norm cfg st fs = Except.ok st₁)
    (hfk : (fs.map (featKey cfg)).Nodup) :
    ∀ f ∈ fs,
      ((∃ u ∈ st₁.units, unitKey u = featKey cfg f) ∧
        (cfg.attributesConfigured = true ∨
          ∀ sf ∈ cfg.subjectFields, ∃ v,
            computeCharVal cfg.subjectFields f sf = Except.ok v)) ∨
      ((∀ u ∈ st₁.units, unitKey u ≠ featKey cfg f) ∧ norm f = none) := by
  induction fs generalizing st with
  | nil => intro f hf; cases hf
  | cons f0 fs ih =>
      rw [importRun, List.foldlM_cons] at h
      rcases hstep : importFeature norm cfg st f0 with e | T <;> rw [hstep] at h <;>
          simp only [Bind.bind, Except.bind] at h
      · exact Except.noConfusion h
      · simp only [List.map_cons, List.nodup_cons] at hfk
        intro f hf
        rcases List.mem_cons.mp hf with rfl | hf'
        · rw [importFeature] at hstep
          rcases hfilt : st.units.filter (fun u => unitKey u = featKey cfg f)
              with _ | ⟨g, gs⟩ <;> rw [hfilt] at hstep <;> simp only [] at hstep
          · rcases hn : norm f with _ | ⟨⟨gg, sim, cen⟩⟩ <;> rw [hn] at hstep <;>
                simp only [] at hstep
            · injection hstep with h2
              refine Or.inr ⟨?_, rfl⟩
              rcases importRun_units_append norm cfg fs T st₁ h with ⟨L, hL, hmem⟩
              intro u hu
              rw [hL] at hu
              rcases List.mem_append.mp hu with h3 | h3
              · rw [← h2] at h3
                have h4 := List.filter_eq_nil.mp hfilt u h3
                simpa using h4
              · rcases hmem u h3 with ⟨f', hf', hk'⟩
                rw [hk']
                intro hcon
                exact hfk.1 (hcon ▸ List.mem_map_of_mem (featKey cfg) hf')
            · have hkey : unitKey (⟨st.nextId, f.nameF, f.portableF, get_shape_tree f,
                  cfg.level, gg, sim, cen, none⟩ : Geounit) = featKey cfg f := rfl
              have hT : T.units = st.units ++
                  [⟨st.nextId, f.nameF, f.portableF, get_shape_tree f, cfg.level,
                    gg, sim, cen, none⟩] ∧
                  (cfg.attributesConfigured = true ∨
                    ∀ sf ∈ cfg.subjectFields, ∃ v,
                      computeCharVal cfg.subjectFields f sf = Except.ok v) := by
                by_cases hattr : cfg.attributesConfigured = true
                · rw [if_pos hattr] at hstep
                  injection hstep with h2
                  exact ⟨by rw [← h2], Or.inl hattr⟩
                · rw [if_neg hattr, set_geounit_characteristic] at hstep
                  exact ⟨(setCharFold_units _ _ _ _ _ _ hstep).1,
                    Or.inr (setCharFold_ok_all _ _ _ _ _ _ hstep)⟩
              rcases importRun_units_append norm cfg fs T st₁ h with ⟨L, hL, hmem⟩
              refine Or.inl ⟨⟨_, ?_, hkey⟩, hT.2⟩
              rw [hL, hT.1]
              exact List.mem_append_left _
                (List.mem_append_right _ (List.mem_singleton_self _))
          · have hg : g ∈ st.units ∧ unitKey g = featKey cfg f := by
              have hgmem : g ∈ st.units.filter
                  (fun u => unitKey u = featKey cfg f) := by
                rw [hfilt]
                exact List.mem_cons_self g gs
              have h5 := List.mem_filter.mp hgmem
              exact ⟨h5.1, by simpa using h5.2⟩
            have hT : T.units = st.units ∧ (cfg.attributesConfigured = true ∨
                ∀ sf ∈ cfg.subjectFields, ∃ v,
                  computeCharVal cfg.subjectFields f sf = Except.ok v) := by
              by_cases hattr : cfg.attributesConfigured = true
              · rw [if_pos hattr] at hstep
                injection hstep with h2
                exact ⟨by rw [← h2], Or.inl hattr⟩
              · rw [if_neg hattr, set_geounit_characteristic] at hstep
                exact ⟨(setCharFold_units _ _ _ _ _ _ hstep).1,
                  Or.inr (setCharFold_ok_all _ _ _ _ _ _ hstep)⟩
            rcases importRun_units_append norm cfg fs T st₁ h with ⟨L, hL, hmem⟩
            refine Or.inl ⟨⟨g, ?_, hg.2⟩, hT.2⟩
            rw [hL, hT.1]
            exact List.mem_append_left _ hg.1
        · exact ih T h hfk.2 f hf'

theorem importRun_rerun (norm : Feature → Option (Geom × Geom × (ℚ × ℚ)))
    (cfg : ImportCfg) (fs : List Feature) (st₁ : Store)
    (hgood : ∀ f ∈ fs,
      ((∃ u ∈ st₁.units, unitKey u = featKey cfg f) ∧
        (cfg.attributesConfigured = true ∨
          ∀ sf ∈ cfg.subjectFields, ∃ v,
            computeCharVal cfg.subjectFields f sf = Except.ok v)) ∨
      ((∀ u ∈ st₁.units, unitKey u ≠ featKey cfg f) ∧ norm f = none))
    (U : Store) (hU : U.units = st₁.units) :
    ∃ U', importRun norm cfg U fs = Except.ok U' ∧ U'.units = st₁.units := by
  induction fs generalizing U with
  | nil => exact ⟨U, rfl, hU⟩
  | cons f fs ih =>
      have hgood0 := hgood f (List.mem_cons_self f fs)
      have hstepex : ∃ W, importFeature norm cfg U f = Except.ok W ∧
          W.units = st₁.units := by
        rw [importFeature]
        rcases hgood0 with ⟨⟨u, hu, hku⟩, hok⟩ | ⟨habs, hnone⟩
        · rcases hfilt : U.units.filter (fun u => unitKey u = featKey cfg f)
              with _ | ⟨g, gs⟩
          · exfalso
            have h6 := List.filter_eq_nil.mp hfilt u (hU ▸ hu)
            simp [hku] at h6
          · simp only []
            by_cases hattr : cfg.attributesConfigured = true
            · rw [if_pos hattr]
              exact ⟨U, rfl, hU⟩
            · rcases hok with hattr' | hall
              · exact absurd hattr' hattr
              · rw [if_neg hattr, set_geounit_characteristic]
                rcases setCharFold_total cfg.subjectFields f g.id cfg.subjectFields
                  U hall with ⟨W, hW⟩
                exact ⟨W, hW, ((setCharFold_units _ _ _ _ _ _ hW).1).trans hU⟩
        · have hfilt : U.units.filter (fun u => unitKey u = featKey cfg f) = [] := by
            apply List.filter_eq_nil.mpr
            intro u hu
            have h7 := habs u (hU ▸ hu)
            simpa using h7
          rw [hfilt, hnone]
          simp only []
          exact ⟨U, rfl, hU⟩
      rcases hstepex with ⟨W, hW, hWu⟩
      rcases ih (fun f' hf' => hgood f' (List.mem_cons_of_mem f hf')) W hWu
        with ⟨U', hrun, hUu⟩
      refine ⟨U', ?_, hUu⟩
      rw [importRun, List.foldlM_cons, hW]
      simpa [importRun, Bind.bind, Except.bind] using hrun

/-- **C4.**  Re-running ingestion over an already-imported source is
idempotent at the unit level: if one run of a source with distinct feature
identity keys succeeds from a store with no duplicate identity keys, then
(i) the resulting store still has no two units sharing an identity key —
the probe precedes every creation — and (ii) a second run of the same
source succeeds and returns a store whose unit table (count and all field
values) is exactly the first run's. -/
theorem c4_reimport_idempotent (norm : Feature → Option (Geom × Geom × (ℚ × ℚ)))
    (cfg : ImportCfg) (fs : List Feature) (st st₁ : Store)
    (h1 : importRun norm cfg st fs = Except.ok st₁)
    (hfk : (fs.map (featKey cfg)).Nodup)
    (hkeys : (st.units.map unitKey).Nodup) :
    (st₁.units.map unitKey).Nodup ∧
    ∃ st₂, importRun norm cfg st₁ fs = Except.ok st₂ ∧ st₂.units = st₁.units := by
  refine ⟨importRun_nodupKeys norm cfg fs st st₁ h1 hkeys, ?_⟩
  exact importRun_rerun norm cfg fs st₁
    (importRun_probe_good norm cfg fs st st₁ h1 hfk) st₁ rfl

/-- Witness for C4: ingesting the two-feature source `exFeatWT, exFeatWT2`
into an empty store yields `exStoreRun`; its unit keys are distinct and a
second run reproduces the same two units. -/
theorem c4_reimport_idempotent_witness :
    (exStoreRun.units.map unitKey).Nodup ∧
    ∃ st₂, importRun exNorm exCfg exStoreRun [exFeatWT, exFeatWT2] =
        Except.ok st₂ ∧ st₂.units = exStoreRun.units :=
  c4_reimport_idempotent exNorm exCfg [exFeatWT, exFeatWT2] exEmptyStore exStoreRun
    (by decide) (by decide) (by decide)

end DistrictBuilder
